import Mathlib

/-!
Shallow embedding of the tweet-link-saver repository (a proxy server in
`server.js` plus a browser client in `app.js`) and proofs about it.

Conventions used throughout:
* JavaScript strings are Lean `String`s; a field that may be `undefined`
  or `null` is an `Option`.
* JavaScript `a || b` on strings treats the empty string as falsy, while
  `a ?? b` only skips `null`/`undefined`; both are modelled explicitly.
* Byte buffers are `List Nat` with every element `< 256`.
* Timestamps (`Date.now()`) are naturals supplied by an explicit clock.
-/

namespace TweetSaver

/-- JavaScript truthiness of an optional string: `undefined`, `null` and
the empty string are falsy. -/
def strTruthy : Option String → Bool
  | none => false
  | some s => s ≠ ""

/-- JavaScript `a || b` restricted to optional strings: returns `a` when
it is truthy, otherwise `b`. -/
def jsOr (a b : Option String) : Option String :=
  if strTruthy a then a else b

/-- Normalizes a JavaScript falsy string value to `none` (used to model a
final `if (!x)` guard after an `||` chain). -/
def jsTruthy (a : Option String) : Option String :=
  if strTruthy a then a else none

/-- JavaScript `a ?? b` (nullish coalescing) on options: only
`null`/`undefined` fall through, an empty string does not. -/
def jsCoalesce (a b : Option α) : Option α :=
  match a with
  | some x => some x
  | none => b

/-- JavaScript `String.prototype.trim`: strip leading and trailing
whitespace (implemented over the character list so that it computes by
structural recursion). -/
def jsTrim (s : String) : String :=
  ⟨(((s.data.dropWhile Char.isWhitespace).reverse.dropWhile
    Char.isWhitespace).reverse)⟩

/-- JavaScript `String.prototype.toLowerCase` (over the character
list). -/
def jsToLower (s : String) : String :=
  ⟨s.data.map Char.toLower⟩

/-- `String.prototype.split` on a single separator character: JavaScript
keeps empty pieces between consecutive separators and at the ends. -/
def splitOnChar (c : Char) : List Char → List (List Char)
  | [] => [[]]
  | x :: rest =>
    let r := splitOnChar c rest
    if x = c then [] :: r
    else
      match r with
      | [] => [[x]]
      | y :: ys => (x :: y) :: ys

instance {ε α : Type} [DecidableEq ε] [DecidableEq α] :
    DecidableEq (Except ε α) := fun a b =>
  match a, b with
  | .ok x, .ok y =>
    if h : x = y then isTrue (by rw [h])
    else isFalse (by intro hc; cases hc; exact h rfl)
  | .error x, .error y =>
    if h : x = y then isTrue (by rw [h])
    else isFalse (by intro hc; cases hc; exact h rfl)
  | .ok _, .error _ => isFalse (by intro hc; cases hc)
  | .error _, .ok _ => isFalse (by intro hc; cases hc)

/-- A JSON value of a request-body field, as far as the server's
`typeof x === 'string'` guards can observe it: either a string or
something else. -/
inductive JsonVal where
  | str (s : String)
  | other
deriving DecidableEq, Repr

/- ----------------------------------------------------------------- -/
/- server.js: the /api/thread pagination loop                         -/
/- ----------------------------------------------------------------- -/

/-- One element of a provider page's `tweets`/`replies` array, keeping
the three id fields read by the loop (`entry?.id || entry?.tweet_id ||
entry?.tweetId`) and an opaque payload for the rest of the object. -/
structure PageEntry where
  id : Option String
  tweet_id : Option String
  tweetId : Option String
  payload : String
deriving DecidableEq, Repr

/-- `const entryId = entry?.id || entry?.tweet_id || entry?.tweetId`,
normalized so that a falsy result (the loop's `if (!entryId …) continue`)
is `none`. -/
def entryId (e : PageEntry) : Option String :=
  jsTruthy (jsOr e.id (jsOr e.tweet_id e.tweetId))

/-- One provider response for `/twitter/tweet/thread_context`: the
`response.ok` flag and status, plus the payload fields the handler
reads. -/
structure ThreadPage where
  ok : Bool
  status : Nat
  message : Option String
  tweetIdOfPayload : Option String
  original_tweet_id : Option String
  originalTweetId : Option String
  tweets : Option (List PageEntry)
  replies : Option (List PageEntry)
  has_next_page : Option Bool
  hasNextPage : Option Bool
  next_cursor : Option String
  nextCursor : Option String
deriving DecidableEq, Repr

/-- `Array.isArray(payload?.tweets) ? payload.tweets :
Array.isArray(payload?.replies) ? payload.replies : []`. -/
def pageTweets (p : ThreadPage) : List PageEntry :=
  match p.tweets with
  | some l => l
  | none =>
    match p.replies with
    | some l => l
    | none => []

/-- The mutable state of the `/api/thread` do-while loop. -/
structure LoopState where
  seenIds : List String
  collectedTweets : List PageEntry
  rootTweetId : Option String
  hasNextPage : Bool
  nextCursor : String
  attempts : Nat
deriving DecidableEq, Repr

/-- The `for (const entry of pageTweets)` body: skip entries whose id is
falsy or already seen, otherwise record the id and push the entry. -/
def collectEntries : List String → List PageEntry → List PageEntry →
    List String × List PageEntry
  | seen, acc, [] => (seen, acc)
  | seen, acc, e :: rest =>
    match entryId e with
    | none => collectEntries seen acc rest
    | some i =>
      if i ∈ seen then collectEntries seen acc rest
      else collectEntries (i :: seen) (acc ++ [e]) rest

/-- One iteration of the do-while body applied to a fetched page:
update `rootTweetId`, fold the page's tweets through the dedup loop and
refresh the pagination fields, incrementing `attempts`. -/
def threadBody (tweetId : String) (page : ThreadPage) (s : LoopState) :
    LoopState :=
  let root :=
    if strTruthy s.rootTweetId then s.rootTweetId
    else jsOr page.tweetIdOfPayload
      (jsOr page.original_tweet_id (jsOr page.originalTweetId (some tweetId)))
  let (seen', acc') := collectEntries s.seenIds s.collectedTweets (pageTweets page)
  { seenIds := seen'
    collectedTweets := acc'
    rootTweetId := root
    hasNextPage := (jsCoalesce page.has_next_page page.hasNextPage).getD false
    nextCursor := (jsCoalesce page.next_cursor page.nextCursor).getD ""
    attempts := s.attempts + 1 }

/-- `const maxPages = 8`. -/
def maxPages : Nat := 8

/-- The `while (hasNextPage && nextCursor && attempts < maxPages)`
condition. -/
def contCond (s : LoopState) : Prop :=
  s.hasNextPage = true ∧ s.nextCursor ≠ "" ∧ s.attempts < maxPages

instance (s : LoopState) : Decidable (contCond s) := by
  unfold contCond; infer_instance

/-- An error response (`res.status(n).json({ message })`). -/
structure ErrResp where
  status : Nat
  message : String
deriving DecidableEq, Repr

/-- The do-while loop of the `/api/thread` handler.  The provider is the
sequence of pages returned by successive `forwardRequest` calls (the
`n`-th call returns `provider n`); the second component of the result
counts how many provider requests were made.  The fuel argument is kept
equal to `maxPages - attempts`, so the `0` case is never reached from
`apiThread`. -/
def threadGo (provider : Nat → ThreadPage) (tweetId : String) :
    Nat → LoopState → Except ErrResp LoopState × Nat
  | 0, s => (Except.ok s, s.attempts)
  | fuel + 1, s =>
    let page := provider s.attempts
    if page.ok then
      let s' := threadBody tweetId page s
      if contCond s' then threadGo provider tweetId fuel s'
      else (Except.ok s', s'.attempts)
    else
      (Except.error ⟨page.status, (jsTruthy page.message).getD "Unable to load thread."⟩,
        s.attempts + 1)

/-- The JSON body of a successful `/api/thread` response (the
`fetchedAt: Date.now()` field is the supplied clock value). -/
structure ThreadResp where
  tweets : List PageEntry
  rootTweetId : Option String
  fetchedAt : Nat
  hasNextPage : Bool
  nextCursor : Option String
deriving DecidableEq, Repr

/-- `return res.json({ tweets: collectedTweets, … })` at loop exit. -/
def threadRespond (now : Nat) (s : LoopState) : ThreadResp :=
  { tweets := s.collectedTweets
    rootTweetId := s.rootTweetId
    fetchedAt := now
    hasNextPage := s.hasNextPage ∧ s.nextCursor ≠ ""
    nextCursor := if s.hasNextPage then some s.nextCursor else none }

/-- The request fields read by the three proxy endpoints. -/
structure ApiRequest where
  bodyApiKey : Option JsonVal
  headerApiKey : Option JsonVal
  bodyTweetId : Option JsonVal
  bodyCursor : Option JsonVal
deriving DecidableEq, Repr

/-- The `X-API-Key` header leg of `extractApiKey`: a string header with
non-empty trim, else `null`. -/
def headerKeyOf (req : ApiRequest) : Option String :=
  match req.headerApiKey with
  | some (.str h) => if jsTrim h ≠ "" then some (jsTrim h) else none
  | _ => none

/-- `extractApiKey`: the body `apiKey` wins when it is a string with
non-empty trim, else the `X-API-Key` header under the same test, else
`null` (the caller then sends 400 `apiKey is required`). -/
def extractApiKey (req : ApiRequest) : Option String :=
  match req.bodyApiKey with
  | some (.str s) => if jsTrim s ≠ "" then some (jsTrim s) else headerKeyOf req
  | _ => headerKeyOf req

/-- `const { tweetId } = req.body` followed by the
`!tweetId || typeof tweetId !== 'string'` guard. -/
def reqTweetId (req : ApiRequest) : Option String :=
  match req.bodyTweetId with
  | some (.str s) => if s = "" then none else some s
  | _ => none

/-- `const { cursor = '' } = req.body` followed by
`typeof cursor === 'string' ? cursor : ''`. -/
def reqCursor (req : ApiRequest) : String :=
  match req.bodyCursor with
  | some (.str s) => s
  | _ => ""

/-- The full `/api/thread` handler: API-key guard, tweetId guard, then
the pagination loop.  Returns the response together with the number of
requests forwarded to the provider. -/
def apiThread (provider : Nat → ThreadPage) (now : Nat) (req : ApiRequest) :
    Except ErrResp ThreadResp × Nat :=
  match extractApiKey req with
  | none => (Except.error ⟨400, "apiKey is required"⟩, 0)
  | some _ =>
    match reqTweetId req with
    | none => (Except.error ⟨400, "tweetId is required."⟩, 0)
    | some tweetId =>
      let s0 : LoopState :=
        { seenIds := []
          collectedTweets := []
          rootTweetId := none
          hasNextPage := false
          nextCursor := reqCursor req
          attempts := 0 }
      let out := threadGo provider tweetId maxPages s0
      (out.1.map (threadRespond now), out.2)

/- ----------------------------------------------------------------- -/
/- app.js: tweet payloads, author keys and buildThreadSequence        -/
/- ----------------------------------------------------------------- -/

/-- The fields of a tweet's `author`/`user` object read by
`getAuthorKeys`. -/
structure AuthorObj where
  id : Option String
  rest_id : Option String
  userId : Option String
  user_id : Option String
  id_str : Option String
  userName : Option String
  username : Option String
  screen_name : Option String
  handle : Option String
deriving DecidableEq, Repr

/-- A `legacy` object inside a `user_results.result`. -/
structure UserLegacy where
  screen_name : Option String
deriving DecidableEq, Repr

/-- A `user_results.result` object (`rest_id` and
`legacy?.screen_name`). -/
structure UserResultObj where
  rest_id : Option String
  legacy : Option UserLegacy
deriving DecidableEq, Repr

/-- A `user_results` wrapper object. -/
structure UserResults where
  result : Option UserResultObj
deriving DecidableEq, Repr

/-- A `core` wrapper object (`core.user_results.result`). -/
structure CoreObj where
  user_results : Option UserResults
deriving DecidableEq, Repr

/-- A tweet's `legacy` object, as read by `getAuthorKeys` and
`getTweetTimestamp`. -/
structure TweetLegacy where
  user_id_str : Option String
  screen_name : Option String
  created_at : Option String
deriving DecidableEq, Repr

/-- A provider tweet payload, keeping the fields read by `getTweetId`,
`getTweetTimestamp` and `getAuthorKeys` plus an opaque `text`. -/
structure Tweet where
  id : Option String
  tweet_id : Option String
  tweetId : Option String
  rest_id : Option String
  createdAt : Option String
  created_at : Option String
  author : Option AuthorObj
  user : Option AuthorObj
  legacy : Option TweetLegacy
  core : Option CoreObj
  user_results : Option UserResults
  text : Option String
deriving DecidableEq, Repr

/-- `getTweetId`: `tweet?.id || tweet?.tweet_id || tweet?.tweetId ||
tweet?.rest_id || null`, with a falsy result normalized to `none`. -/
def getTweetId (t : Tweet) : Option String :=
  jsTruthy (jsOr t.id (jsOr t.tweet_id (jsOr t.tweetId t.rest_id)))

/-- `keys.add` on the insertion-ordered key set. -/
def insertKey (k : String) (keys : List String) : List String :=
  if k ∈ keys then keys else keys ++ [k]

/-- `addId` from `getAuthorKeys`: skip `null`/`undefined`, trim, skip an
empty result, else add `id:<normalized>`. -/
def addId (v : Option String) (keys : List String) : List String :=
  match v with
  | none => keys
  | some s =>
    let normalized := jsTrim s
    if normalized = "" then keys else insertKey ("id:" ++ normalized) keys

/-- `addHandle` from `getAuthorKeys`: skip a falsy value, trim and
lowercase, skip an empty result, else add `handle:<normalized>`. -/
def addHandle (v : Option String) (keys : List String) : List String :=
  match v with
  | none => keys
  | some s =>
    if s = "" then keys
    else
      let normalized := jsToLower (jsTrim s)
      if normalized = "" then keys else insertKey ("handle:" ++ normalized) keys

/-- `getAuthorKeys`: collect `id:`/`handle:` keys from
`tweet.author || tweet.user`, `tweet.legacy`,
`tweet.core?.user_results?.result` and `tweet.user_results?.result`. -/
def getAuthorKeys (t : Tweet) : List String :=
  let keys : List String := []
  let keys :=
    match t.author.orElse (fun _ => t.user) with
    | none => keys
    | some a =>
      let keys := addId
        (jsCoalesce a.id (jsCoalesce a.rest_id
          (jsCoalesce a.userId (jsCoalesce a.user_id a.id_str)))) keys
      addHandle
        (jsCoalesce a.userName (jsCoalesce a.username
          (jsCoalesce a.screen_name a.handle))) keys
  let keys :=
    match t.legacy with
    | none => keys
    | some l => addHandle l.screen_name (addId l.user_id_str keys)
  let keys :=
    match t.core.bind (fun c => c.user_results.bind (·.result)) with
    | none => keys
    | some u => addHandle (u.legacy.bind (·.screen_name)) (addId u.rest_id keys)
  match t.user_results.bind (·.result) with
  | none => keys
  | some u => addHandle (u.legacy.bind (·.screen_name)) (addId u.rest_id keys)

/-- `getTweetTimestamp`, parameterized by the platform's date parser
(`new Date(raw).getTime()`, with `NaN` as `none`). -/
def getTweetTimestamp (parseDate : String → Option Int) (t : Tweet) :
    Option Int :=
  match jsTruthy (jsOr t.createdAt
      (jsOr t.created_at (t.legacy.bind (·.created_at)))) with
  | none => none
  | some raw => parseDate raw

/-- An element of the `entries` array built by `buildThreadSequence`. -/
structure SeqEntry where
  tweet : Tweet
  hasTimestamp : Bool
  timestamp : Int
  sequence : Nat
deriving DecidableEq, Repr

/-- The comparator passed to `entries.sort`, as a `≤` test for a stable
sort: timestamped entries come first in timestamp order, the rest keep
their push order. -/
def seqLe (a b : SeqEntry) : Bool :=
  if a.hasTimestamp ∧ b.hasTimestamp then a.timestamp ≤ b.timestamp
  else if a.hasTimestamp then true
  else if b.hasTimestamp then false
  else a.sequence ≤ b.sequence

/-- The closure state of `buildThreadSequence`'s `pushTweet`. -/
structure BuildState where
  entries : List SeqEntry
  seen : List String
  seq : Nat
deriving DecidableEq, Repr

/-- The body of `pushTweet` once the tweet and its (possibly absent) id
are in hand: skip a missing or seen id; record the id; unless
`allowAnyAuthor` (or the root has no author keys), drop a tweet sharing
no author key with the root; otherwise push an entry. -/
def pushTweetGo (parseDate : String → Option Int)
    (rootAuthorKeys : List String) (allowAnyAuthor : Bool) (s : BuildState)
    (tw : Tweet) : Option String → BuildState
  | none => s
  | some i =>
    if i ∈ s.seen then s
    else
      let seen' := i :: s.seen
      if ¬allowAnyAuthor ∧ rootAuthorKeys ≠ [] ∧
          ¬(getAuthorKeys tw).any (· ∈ rootAuthorKeys) then
        { s with seen := seen' }
      else
        let ts := getTweetTimestamp parseDate tw
        { entries := s.entries ++
            [{ tweet := tw
               hasTimestamp := ts.isSome
               timestamp := ts.getD 0
               sequence := s.seq }]
          seen := seen'
          seq := s.seq + 1 }

/-- `pushTweet`: a missing tweet is skipped, otherwise its id is looked
up and `pushTweetGo` runs. -/
def pushTweet (parseDate : String → Option Int) (rootAuthorKeys : List String)
    (allowAnyAuthor : Bool) (s : BuildState) : Option Tweet → BuildState
  | none => s
  | some tw =>
    pushTweetGo parseDate rootAuthorKeys allowAnyAuthor s tw (getTweetId tw)

/-- Stable insertion used to model the platform's stable
`Array.prototype.sort`. -/
def jsSortInsert (le : α → α → Bool) (a : α) : List α → List α
  | [] => [a]
  | b :: l => if le a b then a :: b :: l else b :: jsSortInsert le a l

/-- The platform's stable `Array.prototype.sort` under a consistent
comparator, modelled as stable insertion sort. -/
def jsStableSort (le : α → α → Bool) : List α → List α
  | [] => []
  | a :: l => jsSortInsert le a (jsStableSort le l)

theorem mem_jsSortInsert (le : α → α → Bool) (a x : α) :
    ∀ l : List α, x ∈ jsSortInsert le a l ↔ x = a ∨ x ∈ l := by
  intro l
  induction l with
  | nil => simp [jsSortInsert]
  | cons b l ih =>
    by_cases h : le a b = true
    · simp only [jsSortInsert, if_pos h, List.mem_cons]
    · simp only [jsSortInsert, if_neg h, List.mem_cons, ih]
      tauto

theorem mem_jsStableSort (le : α → α → Bool) (x : α) :
    ∀ l : List α, x ∈ jsStableSort le l ↔ x ∈ l := by
  intro l
  induction l with
  | nil => simp [jsStableSort]
  | cons b l ih =>
    simp only [jsStableSort, mem_jsSortInsert, List.mem_cons, ih]

/-- `buildThreadSequence(rootTweet, fetchedTweets)`: push the root with
`allowAnyAuthor`, push every fetched tweet through the author filter,
stably sort and return the tweets. -/
def buildThreadSequence (parseDate : String → Option Int)
    (rootTweet : Option Tweet) (fetchedTweets : List Tweet) : List Tweet :=
  let rootAuthorKeys :=
    match rootTweet with
    | some t => getAuthorKeys t
    | none => []
  let s0 : BuildState := { entries := [], seen := [], seq := 0 }
  let s1 := pushTweet parseDate rootAuthorKeys true s0 rootTweet
  let s2 := fetchedTweets.foldl
    (fun s t => pushTweet parseDate rootAuthorKeys false s (some t)) s1
  (jsStableSort seqLe s2.entries).map (·.tweet)

/- ----------------------------------------------------------------- -/
/- app.js: saved items, thread cache and the list operations          -/
/- ----------------------------------------------------------------- -/

/-- Lookup in a JavaScript-object-as-map, modelled as an association
list (`state.threads[k]`, `state.threadStatus[k]`). -/
def alGet (m : List (String × β)) (k : String) : Option β :=
  match m with
  | [] => none
  | (k', v) :: rest => if k' = k then some v else alGet rest k

/-- Property assignment `m[k] = v`: replaces the binding in place or
appends a new one. -/
def alSet (m : List (String × β)) (k : String) (v : β) : List (String × β) :=
  match m with
  | [] => [(k, v)]
  | (k', v') :: rest =>
    if k' = k then (k, v) :: rest else (k', v') :: alSet rest k v

/-- `delete m[k]`. -/
def alErase (m : List (String × β)) (k : String) : List (String × β) :=
  m.filter (fun kv => kv.1 ≠ k)

/-- `Object.keys(m)`. -/
def alKeys (m : List (String × β)) : List String :=
  m.map (·.1)

/-- A saved item: `{tweetId, url, tweet, savedAt}` plus the transient
`isPending` marker used by the placeholder during a save. -/
structure SavedItem where
  tweetId : String
  url : String
  tweet : Tweet
  savedAt : Nat
  isPending : Bool := false
deriving DecidableEq, Repr

/-- A thread cache entry: `{tweets, fetchedAt, rootTweetId}`. -/
structure ThreadEntry where
  tweets : List Tweet
  fetchedAt : Option Nat
  rootTweetId : Option String
deriving DecidableEq, Repr

/-- A `state.threadStatus` record: `{loading, error}`. -/
structure TStatus where
  loading : Bool
  error : Option String
deriving DecidableEq, Repr

/-- The `undoState` stored by `showUndoToast` (the value returned by
`deleteItem`). -/
structure UndoRecord where
  item : SavedItem
  index : Nat
  thread : Option ThreadEntry
deriving DecidableEq, Repr

/-- The parts of the client `state` (plus module-level `undoState`) that
the saved-item operations read and write, together with a clock
modelling `Date.now()`. -/
structure ClientState where
  items : List SavedItem
  threads : List (String × ThreadEntry)
  threadStatus : List (String × TStatus)
  activeTweetId : Option String
  undoState : Option UndoRecord
  now : Nat
deriving DecidableEq, Repr

/-- The initial client state (`state.items = []`, empty caches). -/
def initState : ClientState :=
  { items := [], threads := [], threadStatus := [],
    activeTweetId := none, undoState := none, now := 0 }

/-- `ensureThreadStatus` read through: a missing record behaves as
`{loading: false, error: null}`. -/
def getThreadStatus (s : ClientState) (tweetId : String) : TStatus :=
  (alGet s.threadStatus tweetId).getD { loading := false, error := none }

/-- The net effect on the state of a successful `handleSave` for a
resolved `tweetId`, `url` and fetched tweet: if the id is already saved
the message `That tweet is already saved.` is shown and nothing changes;
otherwise the new item is unshifted with `savedAt = Date.now()`.  (The
pending placeholder unshifted at the start is removed again on both the
success and the failure path, so it does not appear in the net
effect.) -/
def handleSaveOk (tid url : String) (tw : Tweet) (s : ClientState) :
    ClientState :=
  if s.items.any (fun item => item.tweetId = tid) then s
  else
    let newItem : SavedItem :=
      { tweetId := tid, url := url, tweet := tw, savedAt := s.now }
    { s with items := newItem :: s.items, now := s.now + 1 }

/-- Inserting at an index, as `array.splice(i, 0, x)` behaves for
`i ≤ array.length`. -/
def listInsertAt : Nat → α → List α → List α
  | 0, a, l => a :: l
  | _ + 1, a, [] => [a]
  | n + 1, a, x :: l => x :: listInsertAt n a l

/-- `findIndex` followed by `splice(index, 1)`: remove the first item
with the given id, returning the remaining list, the removed item and
its index (`none` when no item matches). -/
def removeFirstById (tid : String) : List SavedItem →
    Option (List SavedItem × SavedItem × Nat)
  | [] => none
  | x :: rest =>
    if x.tweetId = tid then some (rest, x, 0)
    else
      match removeFirstById tid rest with
      | none => none
      | some (rest', removed, i) => some (x :: rest', removed, i + 1)

/-- `deleteItem(tweetId)`: remove the first item with this id (returning
`none` when absent), drop the id's thread cache entry and status, clear
`activeTweetId` if it pointed at the id, and return the removed item,
its index and its cached thread. -/
def deleteItem (tid : String) (s : ClientState) :
    ClientState × Option UndoRecord :=
  match removeFirstById tid s.items with
  | none => (s, none)
  | some (items', removed, i) =>
    let thread := if tid ≠ "" then alGet s.threads tid else none
    let threads' := if tid ≠ "" then alErase s.threads tid else s.threads
    let threadStatus' := if tid ≠ "" then alErase s.threadStatus tid else s.threadStatus
    let active' := if s.activeTweetId = some tid then none else s.activeTweetId
    let s' : ClientState :=
      { s with
        items := items'
        threads := threads'
        threadStatus := threadStatus'
        activeTweetId := active' }
    (s', some { item := removed, index := i, thread := thread })

/-- The delete flow of the context menu: `deleteItem` followed by
`showUndoToast(result)` when an item was removed (which stores the
result in `undoState`). -/
def opDelete (tid : String) (s : ClientState) : ClientState :=
  match deleteItem tid s with
  | (s', none) => s'
  | (s', some r) => { s' with undoState := some r }

/-- `undoDelete`: re-insert the remembered item at
`min(index, items.length)`, restore its thread cache entry and reset its
status when one was remembered, and clear `undoState`. -/
def undoDelete (s : ClientState) : ClientState :=
  match s.undoState with
  | none => s
  | some u =>
    let insertIndex := min u.index s.items.length
    let items' := listInsertAt insertIndex u.item s.items
    match u.thread with
    | some th =>
      { s with items := items'
               threads := alSet s.threads u.item.tweetId th
               threadStatus := alSet s.threadStatus u.item.tweetId
                 { loading := false, error := none }
               undoState := none }
    | none => { s with items := items', undoState := none }

/-- `removeOrphanedThreads`: delete every thread-cache key that is not a
saved item's tweetId, removing the same keys from `threadStatus`. -/
def removeOrphanedThreads (s : ClientState) : ClientState :=
  let validIds := s.items.map (·.tweetId)
  let orphans := (alKeys s.threads).filter (fun k => k ∉ validIds)
  { s with threads := s.threads.filter (fun kv => kv.1 ∉ orphans)
           threadStatus := s.threadStatus.filter (fun kv => kv.1 ∉ orphans) }

/-- A raw element of the JSON array stored under the items key: either
an object (read as a saved item) or some other JSON value. -/
inductive StoredEntry where
  | obj (item : SavedItem)
  | invalid
deriving DecidableEq, Repr

/-- The filter of `loadStoredItems`:
`entry && typeof entry === 'object' && entry.tweetId`. -/
def loadKeep : StoredEntry → Option SavedItem
  | .obj item => if item.tweetId = "" then none else some item
  | .invalid => none

/-- `loadStoredItems`: with no stored value (or an unparsable or
non-array one) the state is unchanged; otherwise `state.items` becomes
the stored array filtered to object entries with a truthy `tweetId`. -/
def loadStoredItems (raw : Option (List StoredEntry)) (s : ClientState) :
    ClientState :=
  match raw with
  | none => s
  | some entries => { s with items := entries.filterMap loadKeep }

/-- The user-driven operations on the saved-item collection used for
reachability: a successful save, a delete from the context menu, and an
undo from the toast. -/
inductive Op where
  | save (tid url : String) (tw : Tweet)
  | delete (tid : String)
  | undo
deriving DecidableEq, Repr

/-- Run one operation. -/
def runOp (s : ClientState) : Op → ClientState
  | .save tid url tw => handleSaveOk tid url tw s
  | .delete tid => opDelete tid s
  | .undo => undoDelete s

/-- Run a list of operations from the initial state. -/
def runOps (ops : List Op) : ClientState :=
  ops.foldl runOp initState

/-- A client state reachable by some sequence of save/delete/undo
operations. -/
def Reachable (s : ClientState) : Prop :=
  ∃ ops : List Op, runOps ops = s

/-- Pairwise distinctness of the saved items' tweetIds. -/
def itemIdsUnique (items : List SavedItem) : Prop :=
  (items.map (·.tweetId)).Nodup

instance (items : List SavedItem) : Decidable (itemIdsUnique items) := by
  unfold itemIdsUnique; infer_instance

/-- The most-recent-first order: `savedAt` is non-increasing along the
list. -/
def sortedBySavedAt (items : List SavedItem) : Prop :=
  items.Pairwise (fun a b => b.savedAt ≤ a.savedAt)

instance (items : List SavedItem) : Decidable (sortedBySavedAt items) := by
  unfold sortedBySavedAt; infer_instance

/- ----------------------------------------------------------------- -/
/- server.js: API-key encryption and the per-user key store           -/
/- ----------------------------------------------------------------- -/

/-- All elements of a buffer are bytes. -/
def isBytes (l : List Nat) : Prop :=
  ∀ b ∈ l, b < 256

instance (l : List Nat) : Decidable (isBytes l) := by
  unfold isBytes; infer_instance

/-- The character of the standard base64 alphabet for a sextet. -/
def sextetChar (n : Nat) : Char :=
  if n < 26 then Char.ofNat (65 + n)
  else if n < 52 then Char.ofNat (97 + (n - 26))
  else if n < 62 then Char.ofNat (48 + (n - 52))
  else if n = 62 then '+'
  else '/'

/-- The sextet of a base64 alphabet character, `none` for characters
outside the alphabet. -/
def charSextet (c : Char) : Option Nat :=
  let v := c.toNat
  if 65 ≤ v ∧ v ≤ 90 then some (v - 65)
  else if 97 ≤ v ∧ v ≤ 122 then some (v - 97 + 26)
  else if 48 ≤ v ∧ v ≤ 57 then some (v - 48 + 52)
  else if v = 43 then some 62
  else if v = 47 then some 63
  else none

/-- Standard base64 of a byte list (the behaviour of
`Buffer.toString('base64')`), three bytes at a time with `=` padding. -/
def b64EncodeBytes : List Nat → List Char
  | [] => []
  | [b1] => [sextetChar (b1 / 4), sextetChar (b1 % 4 * 16), '=', '=']
  | [b1, b2] =>
    [sextetChar (b1 / 4), sextetChar (b1 % 4 * 16 + b2 / 16),
      sextetChar (b2 % 16 * 4), '=']
  | b1 :: b2 :: b3 :: rest =>
    sextetChar (b1 / 4) :: sextetChar (b1 % 4 * 16 + b2 / 16) ::
      sextetChar (b2 % 16 * 4 + b3 / 64) :: sextetChar (b3 % 64) ::
      b64EncodeBytes rest

/-- Decode one base64 quartet, honouring `=` padding. -/
def b64DecodeChunk (c1 c2 c3 c4 : Char) : Option (List Nat) :=
  match charSextet c1, charSextet c2 with
  | some s1, some s2 =>
    if c3 = '=' then
      if c4 = '=' then some [s1 * 4 + s2 / 16] else none
    else
      match charSextet c3 with
      | some s3 =>
        if c4 = '=' then some [s1 * 4 + s2 / 16, s2 % 16 * 16 + s3 / 4]
        else
          match charSextet c4 with
          | some s4 =>
            some [s1 * 4 + s2 / 16, s2 % 16 * 16 + s3 / 4, s3 % 4 * 64 + s4]
          | none => none
      | none => none
  | _, _ => none

/-- Decode base64 text back to bytes (the behaviour of
`Buffer.from(payload, 'base64')` on well-formed input). -/
def b64DecodeChars : List Char → Option (List Nat)
  | [] => some []
  | c1 :: c2 :: c3 :: c4 :: rest =>
    match b64DecodeChunk c1 c2 c3 c4, b64DecodeChars rest with
    | some bs, some rbs => some (bs ++ rbs)
    | _, _ => none
  | _ => none

/-- `buffer.toString('base64')`. -/
def base64Encode (l : List Nat) : String :=
  ⟨b64EncodeBytes l⟩

/-- `Buffer.from(payload, 'base64')`. -/
def base64Decode (s : String) : Option (List Nat) :=
  b64DecodeChars s.data

/-- The platform AES-256-GCM primitive
(`crypto.createCipheriv('aes-256-gcm', …)`), abstracted: `enc` maps a
key, an IV and a plaintext string (consumed as UTF-8 by
`cipher.update(value, 'utf8')`) to the ciphertext and auth tag, and
`dec` maps key, IV, tag and ciphertext back to the plaintext, failing on
an authentication mismatch. -/
structure GCMCipher where
  enc : List Nat → List Nat → String → List Nat × List Nat
  dec : List Nat → List Nat → List Nat → List Nat → Option String

/-- `encryptApiKey(value)` with the 12-byte random IV made explicit:
base64 of IV ‖ auth tag ‖ ciphertext. -/
def encryptApiKey (C : GCMCipher) (encryptionKey iv : List Nat)
    (value : String) : String :=
  let ct := (C.enc encryptionKey iv value).1
  let authTag := (C.enc encryptionKey iv value).2
  base64Encode (iv ++ authTag ++ ct)

/-- `decryptApiKey(payload)`: base64-decode, reject a payload shorter
than 28 bytes, split the buffer at offsets 12 and 28 into IV, auth tag
and ciphertext, and decipher. -/
def decryptApiKey (C : GCMCipher) (encryptionKey : List Nat)
    (payload : String) : Option String :=
  match base64Decode payload with
  | none => none
  | some raw =>
    if raw.length < 28 then none
    else
      let iv := raw.take 12
      let authTag := (raw.drop 12).take 16
      let ct := raw.drop 28
      C.dec encryptionKey iv authTag ct

/-- A stored `ApiKeyRecord`: `{value, updatedAt}`. -/
structure ApiKeyRecord where
  value : String
  updatedAt : Nat
deriving DecidableEq, Repr

/-- `POST /api/user/api-key` for an authenticated `uid` (the IV drawn by
`crypto.randomBytes(12)` is explicit): trim the incoming key, reject an
empty one with 400, else store the encrypted value with
`updatedAt = Date.now()`. -/
def postUserApiKey (C : GCMCipher) (encryptionKey iv : List Nat)
    (uid : String) (now : Nat) (incoming : String)
    (store : List (String × ApiKeyRecord)) :
    Except ErrResp (List (String × ApiKeyRecord)) :=
  let incomingKey := jsTrim incoming
  if incomingKey = "" then Except.error ⟨400, "apiKey is required."⟩
  else
    Except.ok (alSet store uid
      { value := encryptApiKey C encryptionKey iv incomingKey
        updatedAt := now })

/-- The body of a `GET /api/user/api-key` response. -/
structure GetKeyResp where
  apiKey : Option String
  updatedAt : Option Nat
deriving DecidableEq, Repr

/-- `GET /api/user/api-key` for an authenticated `uid`: no record (or a
falsy stored value) yields `{apiKey: null}`; otherwise the stored value
is decrypted, a failure becoming a 500. -/
def getUserApiKey (C : GCMCipher) (encryptionKey : List Nat) (uid : String)
    (store : List (String × ApiKeyRecord)) : Except ErrResp GetKeyResp :=
  match alGet store uid with
  | none => Except.ok { apiKey := none, updatedAt := none }
  | some record =>
    if record.value = "" then Except.ok { apiKey := none, updatedAt := none }
    else
      match decryptApiKey C encryptionKey record.value with
      | some apiKey =>
        Except.ok { apiKey := some apiKey, updatedAt := some record.updatedAt }
      | none => Except.error ⟨500, "Unable to read stored API key."⟩

/- ----------------------------------------------------------------- -/
/- app.js: extractTweetId                                             -/
/- ----------------------------------------------------------------- -/

/-- The hosts accepted by `extractTweetId`. -/
def SUPPORTED_HOSTS : List String :=
  ["twitter.com", "www.twitter.com", "mobile.twitter.com", "x.com", "www.x.com"]

/-- What `extractTweetId` reads off the platform's parsed `URL`
object. -/
structure ParsedUrl where
  hostname : String
  pathname : String
deriving DecidableEq, Repr

/-- The test `/^([^:]+)\.com\//.test(formatted)`: at least one
leading character, none of them `:`, followed by `.com/`. -/
def comSlashSearch : List Char → Bool
  | [] => false
  | c :: rest =>
    if c = ':' then false
    else List.isPrefixOf ".com/".data rest || comSlashSearch rest

/-- `Array.prototype.indexOf`: the index of the first occurrence, `-1`
when absent. -/
def jsIndexOf (l : List String) (x : String) : Int :=
  match l with
  | [] => -1
  | y :: rest =>
    if y = x then 0
    else
      let r := jsIndexOf rest x
      if r < 0 then -1 else r + 1

/-- The regex match `idCandidate.match(/(\d{5,})/)`: the maximal digit
run at the leftmost position carrying at least five consecutive
digits. -/
def firstLongDigitRun : List Char → Option (List Char)
  | [] => none
  | c :: rest =>
    let run := List.takeWhile Char.isDigit (c :: rest)
    if 5 ≤ run.length then some run else firstLongDigitRun rest

/-- The normalization step of `extractTweetId`: trim, then prefix
`https://` onto a bare `<host>.com/` form that does not already start
with `http`. -/
def formattedOf (value : String) : String :=
  let trimmed := jsTrim value
  if comSlashSearch trimmed.data ∧
      ¬(List.isPrefixOf "http".data trimmed.data) then
    "https://" ++ trimmed
  else trimmed

/-- `url.pathname.split('/').filter(Boolean)`. -/
def urlSegments (url : ParsedUrl) : List String :=
  ((splitOnChar '/' url.pathname.data).map
    (fun cs => (⟨cs⟩ : String))).filter (· ≠ "")

/-- `statusIndex >= 0 ? segments[statusIndex + 1] :
segments[segments.length - 1]`. -/
def idCandidateOf (segments : List String) : Option String :=
  let statusIndex := jsIndexOf segments "status"
  if 0 ≤ statusIndex then segments.get? (statusIndex.toNat + 1)
  else segments.get? (segments.length - 1)

/-- `extractTweetId(value)`, parameterized by the platform URL parser
(`new URL(formatted)`; `none` models the constructor throwing): trim,
prefix `https://` onto a bare `<host>.com/` form, parse, check the
host, split the path into non-empty segments, pick the segment after
`status` (or the last one) and extract a run of at least five digits. -/
def extractTweetId (parse : String → Option ParsedUrl) (value : String) :
    Option String :=
  if value = "" then none
  else
    match parse (formattedOf value) with
    | none => none
    | some url =>
      if jsToLower url.hostname ∉ SUPPORTED_HOSTS then none
      else
        let segments := urlSegments url
        if segments.length < 2 then none
        else
          match jsTruthy (idCandidateOf segments) with
          | none => none
          | some cand =>
            match firstLongDigitRun cand.data with
            | none => none
            | some run => some ⟨run⟩

/- ----------------------------------------------------------------- -/
/- server.js: the /api/verify and /api/tweets handlers                -/
/- ----------------------------------------------------------------- -/

/-- A provider response for `/oapi/my/info`. -/
structure MyInfoResp where
  ok : Bool
  status : Nat
  message : Option String
  recharge_credits : Option Int
deriving DecidableEq, Repr

/-- The body of a successful `/api/verify` response. -/
structure VerifyOk where
  credits : Option Int
deriving DecidableEq, Repr

/-- The `/api/verify` handler: API-key guard, then one forwarded
request; the second component counts forwarded requests. -/
def apiVerify (provider : Unit → MyInfoResp) (req : ApiRequest) :
    Except ErrResp VerifyOk × Nat :=
  match extractApiKey req with
  | none => (Except.error ⟨400, "apiKey is required"⟩, 0)
  | some _ =>
    let p := provider ()
    if p.ok then (Except.ok ⟨p.recharge_credits⟩, 1)
    else
      (Except.error ⟨p.status, (jsTruthy p.message).getD "Unable to verify API key."⟩, 1)

/-- A provider response for `/twitter/tweets`. -/
structure TweetsResp where
  ok : Bool
  status : Nat
  message : Option String
  payloadStatus : Option String
  tweets : Option (List PageEntry)
deriving DecidableEq, Repr

/-- The `/api/tweets` handler: API-key and tweetId guards, then one
forwarded request, picking the entry whose `id` strictly equals the
requested id (falling back to the first entry). -/
def apiTweets (provider : Unit → TweetsResp) (req : ApiRequest) :
    Except ErrResp PageEntry × Nat :=
  match extractApiKey req with
  | none => (Except.error ⟨400, "apiKey is required"⟩, 0)
  | some _ =>
    match reqTweetId req with
    | none => (Except.error ⟨400, "tweetId is required."⟩, 0)
    | some tweetId =>
      let p := provider ()
      if p.ok then
        match p.payloadStatus, p.tweets with
        | some "success", some entries =>
          match (entries.find? (fun e => e.id = some tweetId)).orElse
              (fun _ => entries.head?) with
          | some tweet => (Except.ok tweet, 1)
          | none => (Except.error ⟨404, "Tweet not found."⟩, 1)
        | _, _ => (Except.error ⟨502, "Unexpected response from twitterapi.io."⟩, 1)
      else
        (Except.error ⟨p.status, (jsTruthy p.message).getD "Unable to fetch tweet."⟩, 1)

/- ----------------------------------------------------------------- -/
/- Theorems: the /api/thread pagination loop (C1, C2)                 -/
/- ----------------------------------------------------------------- -/

/-- The dedup invariant of the `/api/thread` loop: collected entries
have pairwise distinct ids, every collected entry has an id, and every
collected id has been recorded in `seenIds`. -/
def collectedInv (seen : List String) (acc : List PageEntry) : Prop :=
  (acc.filterMap entryId).Nodup ∧ (∀ e ∈ acc, (entryId e).isSome) ∧
    ∀ i ∈ acc.filterMap entryId, i ∈ seen

theorem collectEntries_inv :
    ∀ (entries : List PageEntry) (seen : List String) (acc : List PageEntry),
      collectedInv seen acc →
      collectedInv (collectEntries seen acc entries).1
        (collectEntries seen acc entries).2 := by
  intro entries
  induction entries with
  | nil => intro seen acc h; simpa [collectEntries] using h
  | cons e rest ih =>
    intro seen acc h
    unfold collectEntries
    cases he : entryId e with
    | none => exact ih seen acc h
    | some i =>
      by_cases hmem : i ∈ seen
      · simp only [hmem, if_pos]
        exact ih seen acc h
      · simp only [hmem, if_neg, not_false_iff]
        apply ih
        obtain ⟨hnd, hsome, hseen⟩ := h
        refine ⟨?_, ?_, ?_⟩
        · simp only [List.filterMap_append, List.filterMap_cons, he,
            List.filterMap_nil]
          rw [List.nodup_append]
          refine ⟨hnd, List.nodup_singleton i, ?_⟩
          intro j hj hj'
          simp only [List.mem_singleton] at hj'
          subst hj'
          exact hmem (hseen j hj)
        · intro e' he'
          rcases List.mem_append.mp he' with h' | h'
          · exact hsome e' h'
          · simp only [List.mem_singleton] at h'
            subst h'
            simp [he]
        · intro j hj
          simp only [List.filterMap_append, List.filterMap_cons, he,
            List.filterMap_nil, List.mem_append, List.mem_singleton] at hj
          rcases hj with h' | h'
          · exact List.mem_cons_of_mem _ (hseen j h')
          · subst h'
            exact List.mem_cons_self _ _

theorem threadBody_inv (tweetId : String) (page : ThreadPage) (s : LoopState)
    (h : collectedInv s.seenIds s.collectedTweets) :
    collectedInv (threadBody tweetId page s).seenIds
      (threadBody tweetId page s).collectedTweets := by
  unfold threadBody
  simpa using collectEntries_inv (pageTweets page) s.seenIds s.collectedTweets h

theorem threadGo_inv (provider : Nat → ThreadPage) (tweetId : String) :
    ∀ (fuel : Nat) (s : LoopState),
      collectedInv s.seenIds s.collectedTweets →
      ∀ s' n, threadGo provider tweetId fuel s = (Except.ok s', n) →
        collectedInv s'.seenIds s'.collectedTweets := by
  intro fuel
  induction fuel with
  | zero =>
    intro s h s' n hrun
    simp only [threadGo, Prod.mk.injEq, Except.ok.injEq] at hrun
    obtain ⟨rfl, rfl⟩ := hrun
    exact h
  | succ fuel ih =>
    intro s h s' n hrun
    rw [threadGo] at hrun
    by_cases hok : (provider s.attempts).ok = true
    · rw [if_pos hok] at hrun
      by_cases hc : contCond (threadBody tweetId (provider s.attempts) s)
      · rw [if_pos hc] at hrun
        exact ih _ (threadBody_inv tweetId _ s h) s' n hrun
      · rw [if_neg hc] at hrun
        simp only [Prod.mk.injEq, Except.ok.injEq] at hrun
        obtain ⟨rfl, rfl⟩ := hrun
        exact threadBody_inv tweetId _ s h
    · rw [if_neg hok] at hrun
      simp only [Prod.mk.injEq] at hrun
      exact absurd hrun.1 (by simp)

theorem pairwise_entryId_ne :
    ∀ (l : List PageEntry), (∀ e ∈ l, (entryId e).isSome) →
      (l.filterMap entryId).Nodup →
      l.Pairwise (fun a b => entryId a ≠ entryId b) := by
  intro l
  induction l with
  | nil => intro _ _; exact List.Pairwise.nil
  | cons e rest ih =>
    intro hsome hnd
    obtain ⟨i, hi⟩ := Option.isSome_iff_exists.mp (hsome e (List.mem_cons_self _ _))
    rw [List.filterMap_cons, hi] at hnd
    rw [List.nodup_cons] at hnd
    refine List.Pairwise.cons ?_ (ih (fun x hx => hsome x (List.mem_cons_of_mem _ hx)) hnd.2)
    intro b hb hne
    obtain ⟨j, hj⟩ := Option.isSome_iff_exists.mp
      (hsome b (List.mem_cons_of_mem _ hb))
    rw [hi, hj] at hne
    cases hne
    exact hnd.1 (List.mem_filterMap.mpr ⟨b, hb, hj⟩)

/-- C1: every success response of `POST /api/thread` is deduplicated by
tweet id: the collected entries are pairwise distinct by their id (taken
from `id`, `tweet_id` or `tweetId`), and every entry in the response
carries such an id — so an id-less page entry, or one whose id was
already collected, is never included. -/
theorem apiThread_dedup (provider : Nat → ThreadPage) (now : Nat)
    (req : ApiRequest) (resp : ThreadResp) (n : Nat)
    (h : apiThread provider now req = (Except.ok resp, n)) :
    resp.tweets.Pairwise (fun a b => entryId a ≠ entryId b) ∧
    (∀ e ∈ resp.tweets, (entryId e).isSome) ∧
    (resp.tweets.filterMap entryId).Nodup := by
  unfold apiThread at h
  cases hkey : extractApiKey req with
  | none => rw [hkey] at h; exact absurd (congrArg Prod.fst h) (by simp)
  | some key =>
    rw [hkey] at h
    cases hid : reqTweetId req with
    | none => rw [hid] at h; exact absurd (congrArg Prod.fst h) (by simp)
    | some tweetId =>
      rw [hid] at h
      simp only at h
      cases hrun : threadGo provider tweetId maxPages
          { seenIds := [], collectedTweets := [], rootTweetId := none,
            hasNextPage := false, nextCursor := reqCursor req, attempts := 0 } with
      | mk r m =>
        rw [hrun] at h
        cases r with
        | error e => exact absurd (congrArg Prod.fst h) (by simp [Except.map])
        | ok sfin =>
          have hinv : collectedInv sfin.seenIds sfin.collectedTweets := by
            apply threadGo_inv provider tweetId maxPages _ _ sfin m hrun
            exact ⟨List.nodup_nil, by simp, by simp⟩
          simp only [Except.map, Prod.mk.injEq, Except.ok.injEq] at h
          obtain ⟨rfl, rfl⟩ := h
          refine ⟨?_, hinv.2.1, hinv.1⟩
          exact pairwise_entryId_ne _ hinv.2.1 hinv.1

theorem threadGo_attempts (provider : Nat → ThreadPage) (tweetId : String) :
    ∀ (fuel : Nat) (s : LoopState),
      s.attempts + fuel = maxPages → 1 ≤ fuel →
      (((threadGo provider tweetId fuel s).2 ≤ maxPages) ∧
        ∀ s' n, threadGo provider tweetId fuel s = (Except.ok s', n) →
          s.attempts < s'.attempts ∧ s'.attempts ≤ maxPages ∧
          n = s'.attempts ∧ (contCond s' → s'.attempts = maxPages)) := by
  have h8 : maxPages = 8 := rfl
  intro fuel
  induction fuel with
  | zero => intro s _ hf; exact absurd hf (by decide)
  | succ fuel ih =>
    intro s hinv _
    have hatt : (threadBody tweetId (provider s.attempts) s).attempts
        = s.attempts + 1 := rfl
    constructor
    · simp only [threadGo]
      by_cases hok : (provider s.attempts).ok = true
      · rw [if_pos hok]
        by_cases hc : contCond (threadBody tweetId (provider s.attempts) s)
        · rw [if_pos hc]
          have hlt := hc.2.2
          rw [hatt] at hlt
          have hfuel1 : 1 ≤ fuel := by omega
          exact (ih _ (by omega) hfuel1).1
        · rw [if_neg hc]
          show (threadBody tweetId (provider s.attempts) s).attempts ≤ maxPages
          rw [hatt]; omega
      · rw [if_neg hok]
        show s.attempts + 1 ≤ maxPages
        omega
    · intro s' n hrun
      simp only [threadGo] at hrun
      by_cases hok : (provider s.attempts).ok = true
      · rw [if_pos hok] at hrun
        by_cases hc : contCond (threadBody tweetId (provider s.attempts) s)
        · rw [if_pos hc] at hrun
          have hlt := hc.2.2
          rw [hatt] at hlt
          have hfuel1 : 1 ≤ fuel := by omega
          have hrec := (ih _ (by omega) hfuel1).2 s' n hrun
          rw [hatt] at hrec
          exact ⟨by omega, hrec.2.1, hrec.2.2.1, hrec.2.2.2⟩
        · rw [if_neg hc] at hrun
          simp only [Prod.mk.injEq, Except.ok.injEq] at hrun
          obtain ⟨rfl, rfl⟩ := hrun
          rw [hatt]
          exact ⟨by omega, by omega, rfl, fun hcc => absurd hcc hc⟩
      · rw [if_neg hok] at hrun
        simp only [Prod.mk.injEq] at hrun
        exact absurd hrun.1 (by simp)

/-- C2: the `/api/thread` pagination loop makes at most `maxPages = 8`
provider requests, always makes at least one on a success response, and
a success response that still reports a next page with a non-empty
cursor can only arise because the cap of 8 pages was reached — so the
loop runs while the provider reports a next page with a non-empty
cursor and stops unconditionally once 8 pages have been fetched. -/
theorem apiThread_pageCap (provider : Nat → ThreadPage) (now : Nat)
    (req : ApiRequest) :
    (apiThread provider now req).2 ≤ maxPages ∧
    ∀ resp n, apiThread provider now req = (Except.ok resp, n) →
      1 ≤ n ∧ n ≤ maxPages ∧ (resp.hasNextPage = true → n = maxPages) := by
  have h8 : maxPages = 8 := rfl
  unfold apiThread
  cases hkey : extractApiKey req with
  | none => exact ⟨by simp [h8], by intro resp n h; exact absurd (congrArg Prod.fst h) (by simp)⟩
  | some key =>
    cases hid : reqTweetId req with
    | none => exact ⟨by simp [h8], by intro resp n h; exact absurd (congrArg Prod.fst h) (by simp)⟩
    | some tweetId =>
      simp only
      set s0 : LoopState :=
        { seenIds := [], collectedTweets := [], rootTweetId := none,
          hasNextPage := false, nextCursor := reqCursor req, attempts := 0 } with hs0
      have hmain := threadGo_attempts provider tweetId maxPages s0
        (by simp [hs0]) (by rw [h8]; decide)
      cases hrun : threadGo provider tweetId maxPages s0 with
      | mk r m =>
        rw [hrun] at hmain
        cases r with
        | error e =>
          refine ⟨by simpa using hmain.1, ?_⟩
          intro resp n h
          exact absurd (congrArg Prod.fst h) (by simp [Except.map])
        | ok sfin =>
          have hprops := hmain.2 sfin m rfl
          refine ⟨by simpa using hmain.1, ?_⟩
          intro resp n h
          simp only [Except.map, Prod.mk.injEq, Except.ok.injEq] at h
          obtain ⟨rfl, rfl⟩ := h
          refine ⟨by omega, by omega, ?_⟩
          intro hnext
          have hn : sfin.hasNextPage = true ∧ sfin.nextCursor ≠ "" := by
            simpa [threadRespond] using hnext
          have h1 := hprops.2.2.1
          by_cases hcc : contCond sfin
          · have h2 := hprops.2.2.2 hcc
            omega
          · have hge : ¬ sfin.attempts < maxPages := fun hlt =>
              hcc ⟨hn.1, hn.2, hlt⟩
            omega

/-- A concrete one-page provider used by witnesses: two distinct ids,
one of them repeated, an id-less entry, and no next page. -/
def witProvider1 : Nat → ThreadPage := fun _ =>
  { ok := true
    status := 200
    message := none
    tweetIdOfPayload := some "12345"
    original_tweet_id := none
    originalTweetId := none
    tweets := some
      [{ id := some "12345", tweet_id := none, tweetId := none, payload := "root" },
       { id := some "12345", tweet_id := none, tweetId := none, payload := "dup" },
       { id := none, tweet_id := some "67890", tweetId := none, payload := "second" },
       { id := none, tweet_id := none, tweetId := none, payload := "idless" }]
    replies := none
    has_next_page := some false
    hasNextPage := none
    next_cursor := none
    nextCursor := none }

/-- A concrete well-formed request used by witnesses. -/
def witReq1 : ApiRequest :=
  { bodyApiKey := some (.str "key")
    headerApiKey := none
    bodyTweetId := some (.str "12345")
    bodyCursor := none }

/-- The response `apiThread` produces for `witProvider1`/`witReq1`. -/
def witResp1 : ThreadResp :=
  { tweets :=
      [{ id := some "12345", tweet_id := none, tweetId := none, payload := "root" },
       { id := none, tweet_id := some "67890", tweetId := none, payload := "second" }]
    rootTweetId := some "12345"
    fetchedAt := 0
    hasNextPage := false
    nextCursor := none }

theorem apiThread_dedup_witness :
    witResp1.tweets.Pairwise (fun a b => entryId a ≠ entryId b) ∧
    (∀ e ∈ witResp1.tweets, (entryId e).isSome) ∧
    (witResp1.tweets.filterMap entryId).Nodup :=
  apiThread_dedup witProvider1 0 witReq1 witResp1 1 rfl

theorem apiThread_pageCap_witness :
    1 ≤ 1 ∧ 1 ≤ maxPages ∧ (witResp1.hasNextPage = true → 1 = maxPages) :=
  (apiThread_pageCap witProvider1 0 witReq1).2 witResp1 1 rfl

/- ----------------------------------------------------------------- -/
/- Theorems: the API-key guard of the proxy endpoints (C8)            -/
/- ----------------------------------------------------------------- -/

theorem extractApiKey_none (req : ApiRequest)
    (hbody : ∀ s, req.bodyApiKey = some (JsonVal.str s) → jsTrim s = "")
    (hheader : ∀ s, req.headerApiKey = some (JsonVal.str s) → jsTrim s = "") :
    extractApiKey req = none := by
  have hh : headerKeyOf req = none := by
    unfold headerKeyOf
    cases hhh : req.headerApiKey with
    | none => rfl
    | some v =>
      cases v with
      | str h => simp [hheader h hhh]
      | other => rfl
  unfold extractApiKey
  cases hb : req.bodyApiKey with
  | none => exact hh
  | some v =>
    cases v with
    | str s => simp [hbody s hb, hh]
    | other => exact hh

/-- C8: each of `POST /api/verify`, `POST /api/tweets` and
`POST /api/thread` requires an API key: when neither the body's
`apiKey` nor the `X-API-Key` header holds a string that is non-empty
after trimming, the handler responds 400 `apiKey is required` and
forwards no request to the provider. -/
theorem proxyEndpoints_require_apiKey (req : ApiRequest)
    (hbody : ∀ s, req.bodyApiKey = some (JsonVal.str s) → jsTrim s = "")
    (hheader : ∀ s, req.headerApiKey = some (JsonVal.str s) → jsTrim s = "") :
    (∀ pv, apiVerify pv req = (Except.error ⟨400, "apiKey is required"⟩, 0)) ∧
    (∀ pt, apiTweets pt req = (Except.error ⟨400, "apiKey is required"⟩, 0)) ∧
    (∀ pth now, apiThread pth now req =
      (Except.error ⟨400, "apiKey is required"⟩, 0)) := by
  have hk := extractApiKey_none req hbody hheader
  refine ⟨?_, ?_, ?_⟩
  · intro pv
    unfold apiVerify
    rw [hk]
  · intro pt
    unfold apiTweets
    rw [hk]
  · intro pth now
    unfold apiThread
    rw [hk]

/-- A concrete request whose `apiKey` body field is whitespace and
whose `X-API-Key` header is not a string. -/
def witReqNoKey : ApiRequest :=
  { bodyApiKey := some (.str "   ")
    headerApiKey := some .other
    bodyTweetId := some (.str "12345")
    bodyCursor := none }

/-- A trivial `/oapi/my/info` provider for witnesses. -/
def witInfoProvider : Unit → MyInfoResp := fun _ =>
  { ok := true, status := 200, message := none, recharge_credits := none }

/-- A trivial `/twitter/tweets` provider for witnesses. -/
def witTweetsProvider : Unit → TweetsResp := fun _ =>
  { ok := true, status := 200, message := none, payloadStatus := none,
    tweets := none }

theorem proxyEndpoints_require_apiKey_witness :
    apiVerify witInfoProvider witReqNoKey
      = (Except.error ⟨400, "apiKey is required"⟩, 0) ∧
    apiTweets witTweetsProvider witReqNoKey
      = (Except.error ⟨400, "apiKey is required"⟩, 0) ∧
    apiThread witProvider1 0 witReqNoKey
      = (Except.error ⟨400, "apiKey is required"⟩, 0) := by
  have h := proxyEndpoints_require_apiKey witReqNoKey
    (by
      intro s hs
      simp only [witReqNoKey, Option.some.injEq, JsonVal.str.injEq] at hs
      subst hs
      decide)
    (by
      intro s hs
      simp [witReqNoKey] at hs)
  exact ⟨h.1 _, h.2.1 _, h.2.2 _ 0⟩

/- ----------------------------------------------------------------- -/
/- Theorems: buildThreadSequence keeps only the root's author (C3)    -/
/- ----------------------------------------------------------------- -/

theorem pushTweetGo_entries (parseDate : String → Option Int)
    (rootKeys : List String) (allowAny : Bool) (P : Tweet → Prop)
    (s : BuildState) (hs : ∀ e ∈ s.entries, P e.tweet) (tw : Tweet)
    (hkeys : allowAny = false → rootKeys ≠ [])
    (htw : allowAny = false →
      rootKeys ≠ [] → (getAuthorKeys tw).any (fun k => decide (k ∈ rootKeys)) = true → P tw)
    (htw' : allowAny = true → P tw) :
    ∀ (o : Option String) (e : SeqEntry),
      e ∈ (pushTweetGo parseDate rootKeys allowAny s tw o).entries → P e.tweet := by
  intro o e he
  cases o with
  | none => exact hs e he
  | some i =>
    simp only [pushTweetGo] at he
    split at he
    · exact hs e he
    · split at he
      · exact hs e he
      · rename_i hcond
        have he' : e ∈ s.entries ++
            [{ tweet := tw
               hasTimestamp := (getTweetTimestamp parseDate tw).isSome
               timestamp := (getTweetTimestamp parseDate tw).getD 0
               sequence := s.seq : SeqEntry }] := he
        rcases List.mem_append.mp he' with h' | h'
        · exact hs e h'
        · have he2 : e.tweet = tw := by
            rw [List.mem_singleton.mp h']
          rw [he2]
          cases allowAny with
          | true => exact htw' rfl
          | false =>
            have hk' := hkeys rfl
            apply htw rfl hk'
            by_contra hno
            exact hcond ⟨by simp, hk', hno⟩

theorem pushTweet_false_entries (parseDate : String → Option Int)
    (rootKeys : List String) (hk : rootKeys ≠ []) (P : Tweet → Prop)
    (hP : ∀ tw, (getAuthorKeys tw).any (fun k => decide (k ∈ rootKeys)) = true → P tw)
    (s : BuildState) (hs : ∀ e ∈ s.entries, P e.tweet) (t : Tweet) :
    ∀ e ∈ (pushTweet parseDate rootKeys false s (some t)).entries, P e.tweet := by
  intro e he
  simp only [pushTweet] at he
  exact pushTweetGo_entries parseDate rootKeys false P s hs t (fun _ => hk)
    (fun _ _ h => hP t h) (fun h => by cases h) (getTweetId t) e he

theorem pushTweet_true_entries (parseDate : String → Option Int)
    (rootKeys : List String) (P : Tweet → Prop) (t : Option Tweet)
    (hP : ∀ tw, t = some tw → P tw)
    (s : BuildState) (hs : ∀ e ∈ s.entries, P e.tweet) :
    ∀ e ∈ (pushTweet parseDate rootKeys true s t).entries, P e.tweet := by
  intro e he
  cases t with
  | none => exact hs e he
  | some tw =>
    simp only [pushTweet] at he
    exact pushTweetGo_entries parseDate rootKeys true P s hs tw
      (fun h => by cases h) (fun h => by cases h) (fun _ => hP tw rfl)
      (getTweetId tw) e he

theorem foldl_pushTweet_entries (parseDate : String → Option Int)
    (rootKeys : List String) (hk : rootKeys ≠ []) (P : Tweet → Prop)
    (hP : ∀ tw, (getAuthorKeys tw).any (fun k => decide (k ∈ rootKeys)) = true → P tw) :
    ∀ (l : List Tweet) (s : BuildState), (∀ e ∈ s.entries, P e.tweet) →
      ∀ e ∈ (l.foldl (fun s t => pushTweet parseDate rootKeys false s (some t)) s).entries,
        P e.tweet := by
  intro l
  induction l with
  | nil => intro s hs; simpa using hs
  | cons t rest ih =>
    intro s hs
    simp only [List.foldl_cons]
    exact ih _ (pushTweet_false_entries parseDate rootKeys hk P hP s hs t)

/-- C3: the thread sequence rendered for a saved item or cached thread
consists of the root tweet and, besides it, only tweets sharing at least
one author key (author id or normalized handle) with the root — whenever
the root tweet has at least one author key. -/
theorem buildThreadSequence_sameAuthor (parseDate : String → Option Int)
    (root : Tweet) (fetched : List Tweet) (hk : getAuthorKeys root ≠ []) :
    ∀ t ∈ buildThreadSequence parseDate (some root) fetched,
      t = root ∨ ∃ k ∈ getAuthorKeys t, k ∈ getAuthorKeys root := by
  intro t ht
  unfold buildThreadSequence at ht
  simp only [List.mem_map, mem_jsStableSort] at ht
  obtain ⟨e, he, rfl⟩ := ht
  refine foldl_pushTweet_entries parseDate (getAuthorKeys root) hk
    (fun tw => tw = root ∨ ∃ k ∈ getAuthorKeys tw, k ∈ getAuthorKeys root)
    ?_ fetched _ ?_ e he
  · intro tw hany
    obtain ⟨k, hk1, hk2⟩ := List.any_eq_true.mp hany
    exact Or.inr ⟨k, hk1, of_decide_eq_true hk2⟩
  · intro e' he'
    refine pushTweet_true_entries parseDate (getAuthorKeys root)
      (fun tw => tw = root ∨ ∃ k ∈ getAuthorKeys tw, k ∈ getAuthorKeys root)
      (some root) ?_ _ (by simp) e' he'
    intro tw htw
    cases htw
    exact Or.inl rfl

/-- The date parser used by witnesses (`new Date` never succeeding). -/
def noDate : String → Option Int := fun _ => none

/-- A tweet object with every modelled field absent. -/
def emptyTweet : Tweet :=
  { id := none, tweet_id := none, tweetId := none, rest_id := none,
    createdAt := none, created_at := none, author := none, user := none,
    legacy := none, core := none, user_results := none, text := none }

/-- A concrete author object for witnesses. -/
def witAuthorA : AuthorObj :=
  { id := some "1", rest_id := none, userId := none, user_id := none,
    id_str := none, userName := some "alice", username := none,
    screen_name := none, handle := none }

/-- A concrete root tweet by `witAuthorA`. -/
def witRoot : Tweet := { emptyTweet with id := some "100", author := some witAuthorA }

/-- A concrete reply by the same author. -/
def witReply : Tweet := { emptyTweet with id := some "101", author := some witAuthorA }

theorem buildThreadSequence_sameAuthor_witness :
    witReply = witRoot ∨ ∃ k ∈ getAuthorKeys witReply, k ∈ getAuthorKeys witRoot :=
  buildThreadSequence_sameAuthor noDate witRoot [witReply] (by decide)
    witReply (by decide)

/- ----------------------------------------------------------------- -/
/- Lemmas about the association-list and list primitives              -/
/- ----------------------------------------------------------------- -/

theorem alGet_alErase (k k' : String) :
    ∀ m : List (String × β), alGet (alErase m k) k' =
      if k' = k then none else alGet m k' := by
  intro m
  induction m with
  | nil => simp [alErase, alGet]
  | cons kv rest ih =>
    obtain ⟨k1, v1⟩ := kv
    by_cases hk : k1 = k <;> by_cases hk' : k1 = k' <;>
      simp_all [alErase, alGet, List.filter_cons]

theorem alGet_alSet (k k' : String) (v : β) :
    ∀ m : List (String × β), alGet (alSet m k v) k' =
      if k' = k then some v else alGet m k' := by
  intro m
  induction m with
  | nil =>
    by_cases h : k' = k
    · simp [alSet, alGet, h]
    · simp [alSet, alGet, h, Ne.symm h]
  | cons kv rest ih =>
    obtain ⟨k1, v1⟩ := kv
    by_cases hk : k1 = k
    · subst hk
      simp only [alSet, if_pos rfl]
      by_cases h : k' = k1
      · simp [alGet, h]
      · simp [alGet, h, Ne.symm h]
    · simp only [alSet, if_neg hk]
      by_cases h : k1 = k'
      · subst h
        simp [alGet, hk]
      · simp [alGet, h, ih]

theorem removeFirstById_none_iff (tid : String) :
    ∀ l : List SavedItem,
      removeFirstById tid l = none ↔ ∀ y ∈ l, y.tweetId ≠ tid := by
  intro l
  induction l with
  | nil => simp [removeFirstById]
  | cons x rest ih =>
    rw [removeFirstById]
    by_cases h : x.tweetId = tid
    · simp [h]
    · rw [if_neg h]
      cases hr : removeFirstById tid rest with
      | none =>
        simp only [List.mem_cons]
        constructor
        · intro _ y hy
          rcases hy with rfl | hy
          · exact h
          · exact (ih.mp hr) y hy
        · intro _
          trivial
      | some r =>
        obtain ⟨rest', removed, i⟩ := r
        simp only [List.mem_cons]
        constructor
        · intro hc
          cases hc
        · intro hall
          have h2 : ∀ y ∈ rest, y.tweetId ≠ tid := fun y hy => hall y (Or.inr hy)
          rw [ih.mpr h2] at hr
          cases hr

theorem removeFirstById_spec (tid : String) :
    ∀ (l l' : List SavedItem) (x : SavedItem) (i : Nat),
      removeFirstById tid l = some (l', x, i) →
      x.tweetId = tid ∧ i ≤ l'.length ∧ listInsertAt i x l' = l ∧
        l'.Sublist l := by
  intro l
  induction l with
  | nil => intro l' x i h; cases h
  | cons y rest ih =>
    intro l' x i h
    rw [removeFirstById] at h
    by_cases hy : y.tweetId = tid
    · rw [if_pos hy] at h
      simp only [Option.some.injEq, Prod.mk.injEq] at h
      obtain ⟨rfl, rfl, rfl⟩ := h
      exact ⟨hy, Nat.zero_le _, rfl, List.sublist_cons_self y rest⟩
    · rw [if_neg hy] at h
      cases hr : removeFirstById tid rest with
      | none =>
        rw [hr] at h
        cases h
      | some r =>
        obtain ⟨rest', removed, j⟩ := r
        rw [hr] at h
        simp only [Option.some.injEq, Prod.mk.injEq] at h
        obtain ⟨rfl, rfl, rfl⟩ := h
        obtain ⟨h1, h2, h3, h4⟩ := ih rest' removed j hr
        refine ⟨h1, ?_, ?_, List.Sublist.cons₂ y h4⟩
        · simpa using Nat.succ_le_succ h2
        · show y :: listInsertAt j removed rest' = y :: rest
          rw [h3]

/- ----------------------------------------------------------------- -/
/- Theorems: uniqueness of the saved-item list (C4)                   -/
/- ----------------------------------------------------------------- -/

theorem listInsertAt_perm (a : α) : ∀ (n : Nat) (l : List α),
    List.Perm (listInsertAt n a l) (a :: l) := by
  intro n
  induction n with
  | zero => intro l; exact List.Perm.refl _
  | succ n ih =>
    intro l
    cases l with
    | nil => exact List.Perm.refl _
    | cons x l =>
      exact List.Perm.trans (List.Perm.cons x (ih l)) (List.Perm.swap a x l)

/-- The tweetId carried by a raw stored entry, when it is an object. -/
def storedId : StoredEntry → Option String
  | .obj item => some item.tweetId
  | .invalid => none

theorem loadKeep_ids_sublist :
    ∀ entries : List StoredEntry,
      ((entries.filterMap loadKeep).map (·.tweetId)).Sublist
        (entries.filterMap storedId) := by
  intro entries
  induction entries with
  | nil => simp
  | cons e rest ih =>
    cases e with
    | invalid => simpa [loadKeep, storedId, List.filterMap_cons] using ih
    | obj item =>
      by_cases h : item.tweetId = ""
      · simp only [List.filterMap_cons, loadKeep, storedId, h, if_pos]
        exact List.Sublist.cons _ ih
      · simp only [List.filterMap_cons, loadKeep, storedId, h, if_neg,
          not_false_iff, List.map_cons]
        exact List.Sublist.cons₂ _ ih

theorem handleSaveOk_items (tid url : String) (tw : Tweet) (s : ClientState) :
    (handleSaveOk tid url tw s).items = s.items ∨
    ((¬ s.items.any (fun item => item.tweetId = tid) = true) ∧
      (handleSaveOk tid url tw s).items =
        { tweetId := tid, url := url, tweet := tw, savedAt := s.now,
          isPending := false } :: s.items ∧
      (handleSaveOk tid url tw s).now = s.now + 1) := by
  unfold handleSaveOk
  by_cases h : s.items.any (fun item => item.tweetId = tid) = true
  · rw [if_pos h]
    exact Or.inl rfl
  · rw [if_neg h]
    exact Or.inr ⟨h, rfl, rfl⟩

theorem handleSaveOk_now_same (tid url : String) (tw : Tweet) (s : ClientState) :
    s.now ≤ (handleSaveOk tid url tw s).now := by
  unfold handleSaveOk
  by_cases h : s.items.any (fun item => item.tweetId = tid) = true
  · rw [if_pos h]
  · rw [if_neg h]
    exact Nat.le_succ _

theorem opDelete_items (tid : String) (s : ClientState) :
    (opDelete tid s).items.Sublist s.items ∧
    (opDelete tid s).now = s.now := by
  unfold opDelete deleteItem
  cases hrem : removeFirstById tid s.items with
  | none => exact ⟨List.Sublist.refl _, rfl⟩
  | some r =>
    obtain ⟨l', x, i⟩ := r
    exact ⟨(removeFirstById_spec tid s.items l' x i hrem).2.2.2, rfl⟩

theorem undoDelete_items (s : ClientState) :
    (s.undoState = none ∧ undoDelete s = s) ∨
    (∃ u, s.undoState = some u ∧
      (undoDelete s).items =
        listInsertAt (min u.index s.items.length) u.item s.items) := by
  cases hu : s.undoState with
  | none =>
    refine Or.inl ⟨rfl, ?_⟩
    unfold undoDelete
    rw [hu]
  | some u =>
    refine Or.inr ⟨u, rfl, ?_⟩
    unfold undoDelete
    rw [hu]
    obtain ⟨item, index, thread⟩ := u
    cases thread with
    | none => rfl
    | some th => rfl

/-- C4 (amended): the tweetIds of the saved-item list stay pairwise
distinct under saving (which rejects an already-present id with
`That tweet is already saved.`), under deleting, and under loading a
stored list whose object entries have pairwise distinct ids;
`undoDelete` preserves distinctness provided the remembered item's
tweetId is not currently present — it re-inserts without any duplicate
check, so an intervening save of the same tweet breaks the invariant
(see the counterexample). -/
theorem savedItems_unique (s : ClientState) (h : itemIdsUnique s.items) :
    (∀ tid url tw, itemIdsUnique (handleSaveOk tid url tw s).items) ∧
    (∀ tid, itemIdsUnique (opDelete tid s).items) ∧
    (∀ u, s.undoState = some u → u.item.tweetId ∉ s.items.map (·.tweetId) →
      itemIdsUnique (undoDelete s).items) ∧
    (∀ entries : List StoredEntry, (entries.filterMap storedId).Nodup →
      itemIdsUnique (loadStoredItems (some entries) s).items) := by
  refine ⟨?_, ?_, ?_, ?_⟩
  · intro tid url tw
    rcases handleSaveOk_items tid url tw s with heq | ⟨hdup, heq, _⟩
    · rw [itemIdsUnique, heq]; exact h
    · rw [itemIdsUnique, heq, List.map_cons, List.nodup_cons]
      refine ⟨?_, h⟩
      intro hmem
      apply hdup
      obtain ⟨it, hit, hid⟩ := List.mem_map.mp hmem
      exact List.any_eq_true.mpr ⟨it, hit, by simp [hid]⟩
  · intro tid
    have hsub := (opDelete_items tid s).1
    exact List.Nodup.sublist (hsub.map _) h
  · intro u hu hnotmem
    rcases undoDelete_items s with ⟨hn, _⟩ | ⟨u', hu', heq⟩
    · rw [hn] at hu; cases hu
    · rw [hu] at hu'
      cases hu'
      rw [itemIdsUnique, heq]
      have hperm := (listInsertAt_perm u.item (min u.index s.items.length)
        s.items).map (·.tweetId)
      rw [hperm.nodup_iff, List.map_cons, List.nodup_cons]
      exact ⟨hnotmem, h⟩
  · intro entries hnd
    unfold loadStoredItems
    exact List.Nodup.sublist (loadKeep_ids_sublist entries) hnd

/-- The trace that breaks uniqueness: save a tweet, delete it (arming
the undo toast), save it again, then undo. -/
def c4ops : List Op :=
  [Op.save "11111" "u1" emptyTweet, Op.delete "11111",
   Op.save "11111" "u1" emptyTweet, Op.undo]

/-- C4 counterexample: a reachable client state whose saved tweetIds are
not pairwise distinct — `undoDelete` re-inserts a tweetId that was saved
again after the delete. -/
theorem savedItems_unique_cex :
    Reachable (runOps c4ops) ∧
    (runOps c4ops).items.map (·.tweetId) = ["11111", "11111"] ∧
    ¬ itemIdsUnique (runOps c4ops).items :=
  ⟨⟨c4ops, rfl⟩, by decide, by decide⟩

/-- A reachable state with two distinct saved items and no pending
undo. -/
def witOps0 : List Op :=
  [Op.save "11111" "u1" emptyTweet, Op.save "33333" "u3" emptyTweet]

def witState0 : ClientState := runOps witOps0

/-- A reachable state with a pending undo for tweetId `"11111"` whose
item list holds only `"33333"`. -/
def witOps1 : List Op :=
  [Op.save "11111" "u1" emptyTweet, Op.delete "11111",
   Op.save "33333" "u3" emptyTweet]

def witState1 : ClientState := runOps witOps1

/-- A stored list with duplicate-free object ids. -/
def witStored1 : List StoredEntry :=
  [StoredEntry.obj ⟨"55555", "u5", emptyTweet, 7, false⟩,
   StoredEntry.invalid,
   StoredEntry.obj ⟨"", "u6", emptyTweet, 8, false⟩]

/-- The undo record pending in `witState1`. -/
def witUndo1 : UndoRecord := ⟨⟨"11111", "u1", emptyTweet, 0, false⟩, 0, none⟩

theorem savedItems_unique_witness :
    itemIdsUnique (handleSaveOk "22222" "u2" emptyTweet witState1).items ∧
    itemIdsUnique (opDelete "33333" witState1).items ∧
    itemIdsUnique (undoDelete witState1).items ∧
    itemIdsUnique (loadStoredItems (some witStored1) witState1).items := by
  have h := savedItems_unique witState1 (by decide)
  exact ⟨h.1 "22222" "u2" emptyTweet, h.2.1 "33333",
    h.2.2.1 witUndo1 (by decide) (by decide),
    h.2.2.2 witStored1 (by decide)⟩

/- ----------------------------------------------------------------- -/
/- Theorems: most-recent-first order of the saved-item list (C5)      -/
/- ----------------------------------------------------------------- -/

theorem opDelete_found (tid : String) (s : ClientState)
    (l' : List SavedItem) (x : SavedItem) (i : Nat)
    (hrem : removeFirstById tid s.items = some (l', x, i)) :
    opDelete tid s =
      { items := l'
        threads := if tid ≠ "" then alErase s.threads tid else s.threads
        threadStatus :=
          if tid ≠ "" then alErase s.threadStatus tid else s.threadStatus
        activeTweetId :=
          if s.activeTweetId = some tid then none else s.activeTweetId
        undoState := some
          { item := x, index := i,
            thread := if tid ≠ "" then alGet s.threads tid else none }
        now := s.now } := by
  unfold opDelete deleteItem
  rw [hrem]

theorem opDelete_notFound (tid : String) (s : ClientState)
    (hrem : removeFirstById tid s.items = none) :
    opDelete tid s = s := by
  unfold opDelete deleteItem
  rw [hrem]

/-- C5 (amended): most-recent-first order of the saved-item list — with
`savedAt` stamps never exceeding the clock — is preserved by saving
(unshift of an item stamped now) and by deleting, and an undo performed
on the state left by its delete restores the item list exactly;
re-inserting at the remembered index is however not order-preserving
when a save intervened between the delete and the undo (see the
counterexample). -/
theorem savedItems_order (s : ClientState)
    (hsorted : sortedBySavedAt s.items)
    (hclock : ∀ it ∈ s.items, it.savedAt ≤ s.now) :
    (∀ tid url tw, sortedBySavedAt (handleSaveOk tid url tw s).items ∧
      ∀ it ∈ (handleSaveOk tid url tw s).items,
        it.savedAt ≤ (handleSaveOk tid url tw s).now) ∧
    (∀ tid, sortedBySavedAt (opDelete tid s).items ∧
      ∀ it ∈ (opDelete tid s).items, it.savedAt ≤ (opDelete tid s).now) ∧
    (∀ tid, s.undoState = none →
      (undoDelete (opDelete tid s)).items = s.items) := by
  refine ⟨?_, ?_, ?_⟩
  · intro tid url tw
    have hnow := handleSaveOk_now_same tid url tw s
    rcases handleSaveOk_items tid url tw s with heq | ⟨hdup, heq, hnow'⟩
    · rw [sortedBySavedAt, heq]
      exact ⟨hsorted, fun it hit => le_trans (hclock it (heq ▸ hit)) hnow⟩
    · rw [sortedBySavedAt, heq]
      constructor
      · exact List.Pairwise.cons (fun y hy => hclock y hy) hsorted
      · rw [hnow']
        intro it hit
        rcases List.mem_cons.mp hit with rfl | hit
        · exact Nat.le_succ _
        · exact le_trans (hclock it hit) (Nat.le_succ _)
  · intro tid
    obtain ⟨hsub, hnow⟩ := opDelete_items tid s
    refine ⟨List.Pairwise.sublist hsub hsorted, ?_⟩
    intro it hit
    rw [hnow]
    exact hclock it (hsub.mem hit)
  · intro tid hundo
    cases hrem : removeFirstById tid s.items with
    | none =>
      rw [opDelete_notFound tid s hrem]
      rcases undoDelete_items s with ⟨_, heq⟩ | ⟨u, hu, _⟩
      · rw [heq]
      · rw [hundo] at hu; cases hu
    | some r =>
      obtain ⟨l', x, i⟩ := r
      obtain ⟨hxtid, hle, hins, _⟩ := removeFirstById_spec tid s.items l' x i hrem
      rw [opDelete_found tid s l' x i hrem]
      rcases undoDelete_items
          { items := l'
            threads := if tid ≠ "" then alErase s.threads tid else s.threads
            threadStatus :=
              if tid ≠ "" then alErase s.threadStatus tid else s.threadStatus
            activeTweetId :=
              if s.activeTweetId = some tid then none else s.activeTweetId
            undoState := some
              { item := x, index := i,
                thread := if tid ≠ "" then alGet s.threads tid else none }
            now := s.now } with ⟨hn, _⟩ | ⟨u, hu, heq⟩
      · cases hn
      · simp only [Option.some.injEq] at hu
        subst hu
        rw [heq]
        simp only [Nat.min_eq_left hle]
        exact hins

/-- The trace that breaks the order: save three tweets, delete the
middle one (arming the undo toast), save a fourth, then undo. -/
def c5ops : List Op :=
  [Op.save "10001" "a" emptyTweet, Op.save "10002" "b" emptyTweet,
   Op.save "10003" "c" emptyTweet, Op.delete "10002",
   Op.save "10004" "d" emptyTweet, Op.undo]

/-- C5 counterexample: a reachable client state whose items are not in
non-increasing `savedAt` order — `undoDelete` splices the removed item
back at its old index after a newer item was saved. -/
theorem savedItems_order_cex :
    Reachable (runOps c5ops) ∧
    (runOps c5ops).items.map (·.savedAt) = [3, 1, 2, 0] ∧
    ¬ sortedBySavedAt (runOps c5ops).items :=
  ⟨⟨c5ops, rfl⟩, by decide, by decide⟩

theorem savedItems_order_witness :
    (sortedBySavedAt (handleSaveOk "22222" "u2" emptyTweet witState0).items ∧
      ∀ it ∈ (handleSaveOk "22222" "u2" emptyTweet witState0).items,
        it.savedAt ≤ (handleSaveOk "22222" "u2" emptyTweet witState0).now) ∧
    (sortedBySavedAt (opDelete "11111" witState0).items ∧
      ∀ it ∈ (opDelete "11111" witState0).items,
        it.savedAt ≤ (opDelete "11111" witState0).now) ∧
    (undoDelete (opDelete "11111" witState0)).items = witState0.items := by
  have h := savedItems_order witState0 (by decide) (by decide)
  exact ⟨h.1 "22222" "u2" emptyTweet, h.2.1 "11111", h.2.2 "11111" (by decide)⟩

/- ----------------------------------------------------------------- -/
/- Theorems: thread-cache garbage collection (C6)                     -/
/- ----------------------------------------------------------------- -/

theorem mem_alKeys (k : String) (m : List (String × β)) :
    k ∈ alKeys m ↔ ∃ v, (k, v) ∈ m := by
  rw [alKeys, List.mem_map]
  constructor
  · rintro ⟨⟨a, b⟩, hm, rfl⟩
    exact ⟨b, hm⟩
  · rintro ⟨v, hm⟩
    exact ⟨(k, v), hm, rfl⟩

theorem opDelete_threads (tid : String) (s : ClientState) (htid : tid ≠ "")
    (hmem : ∃ it ∈ s.items, it.tweetId = tid) :
    alGet (opDelete tid s).threads tid = none ∧
    ∀ k, k ≠ tid → alGet (opDelete tid s).threads k = alGet s.threads k := by
  cases hrem : removeFirstById tid s.items with
  | none =>
    obtain ⟨it, hit, hity⟩ := hmem
    exact absurd hity ((removeFirstById_none_iff tid s.items).mp hrem it hit)
  | some r =>
    obtain ⟨l', x, i⟩ := r
    rw [opDelete_found tid s l' x i hrem]
    simp only [if_pos htid]
    constructor
    · rw [alGet_alErase tid tid s.threads, if_pos rfl]
    · intro k hk
      rw [alGet_alErase tid k s.threads, if_neg hk]

/-- C6 (amended): deleting a saved item removes exactly its thread-cache
entry, and `removeOrphanedThreads` leaves only thread-cache keys
belonging to saved items; it prunes a `threadStatus` key exactly when
that key was a thread-cache key not belonging to any saved item — so a
`threadStatus` key that never had a cache entry survives even when no
saved item owns it (see the counterexample). -/
theorem threadCache_gc (s : ClientState) (tid : String) (htid : tid ≠ "")
    (hmem : ∃ it ∈ s.items, it.tweetId = tid) :
    (alGet (opDelete tid s).threads tid = none ∧
      ∀ k, k ≠ tid → alGet (opDelete tid s).threads k = alGet s.threads k) ∧
    (∀ k ∈ alKeys (removeOrphanedThreads s).threads,
      k ∈ s.items.map (·.tweetId)) ∧
    (∀ k, k ∈ alKeys (removeOrphanedThreads s).threadStatus ↔
      (k ∈ alKeys s.threadStatus ∧
        ¬(k ∈ alKeys s.threads ∧ k ∉ s.items.map (·.tweetId)))) := by
  refine ⟨opDelete_threads tid s htid hmem, ?_, ?_⟩
  · intro k hk
    unfold removeOrphanedThreads at hk
    dsimp only at hk
    rw [mem_alKeys] at hk
    obtain ⟨v, hkv⟩ := hk
    rw [List.mem_filter] at hkv
    obtain ⟨hkm, hp⟩ := hkv
    rw [decide_eq_true_eq] at hp
    by_contra hno
    apply hp
    rw [List.mem_filter]
    exact ⟨(mem_alKeys k s.threads).mpr ⟨v, hkm⟩, by simpa using hno⟩
  · intro k
    unfold removeOrphanedThreads
    dsimp only
    constructor
    · intro hk
      rw [mem_alKeys] at hk
      obtain ⟨v, hkv⟩ := hk
      rw [List.mem_filter] at hkv
      obtain ⟨hkm, hp⟩ := hkv
      rw [decide_eq_true_eq] at hp
      refine ⟨(mem_alKeys k s.threadStatus).mpr ⟨v, hkm⟩, ?_⟩
      intro ⟨hc1, hc2⟩
      apply hp
      rw [List.mem_filter]
      exact ⟨hc1, by simpa using hc2⟩
    · intro ⟨h1, h2⟩
      obtain ⟨v, hv⟩ := (mem_alKeys k s.threadStatus).mp h1
      apply (mem_alKeys k _).mpr
      refine ⟨v, ?_⟩
      rw [List.mem_filter]
      refine ⟨hv, ?_⟩
      rw [decide_eq_true_eq]
      intro hc
      rw [List.mem_filter] at hc
      obtain ⟨hc1, hc2⟩ := hc
      exact h2 ⟨hc1, by simpa using hc2⟩

/-- A state holding a `threadStatus` record (a failed load's error
status) for a tweetId with no saved item and no cache entry. -/
def c6State : ClientState :=
  { items := []
    threads := []
    threadStatus := [("77777", ⟨false, some "Unable to load thread."⟩)]
    activeTweetId := none
    undoState := none
    now := 5 }

/-- C6 counterexample: `removeOrphanedThreads` leaves the orphaned
`threadStatus` key `"77777"` in place although no saved item owns it —
it only prunes `threadStatus` keys that are also thread-cache keys. -/
theorem threadCache_gc_cex :
    alKeys (removeOrphanedThreads c6State).threadStatus = ["77777"] ∧
    (removeOrphanedThreads c6State).items = [] :=
  ⟨by decide, by decide⟩

theorem threadCache_gc_witness :
    (alGet (opDelete "11111" witState0).threads "11111" = none ∧
      ∀ k, k ≠ "11111" →
        alGet (opDelete "11111" witState0).threads k = alGet witState0.threads k) ∧
    (∀ k ∈ alKeys (removeOrphanedThreads witState0).threads,
      k ∈ witState0.items.map (·.tweetId)) ∧
    (∀ k, k ∈ alKeys (removeOrphanedThreads witState0).threadStatus ↔
      (k ∈ alKeys witState0.threadStatus ∧
        ¬(k ∈ alKeys witState0.threads ∧
          k ∉ witState0.items.map (·.tweetId)))) :=
  threadCache_gc witState0 "11111" (by decide) (by decide)

/- ----------------------------------------------------------------- -/
/- Theorems: delete followed by undo is the identity (C10)            -/
/- ----------------------------------------------------------------- -/

/-- C10: from a state with a saved item for `tid`, `deleteItem(tid)`
followed by `undoDelete` (before the undo state is cleared) restores the
item list exactly (the item returns to its index with the same
contents), restores the thread cache pointwise (the entry returns when
one existed), and leaves the item's thread status reading as not loading
with no error; other `threadStatus` keys are untouched. -/
theorem delete_undo_identity (s : ClientState) (tid : String)
    (htid : tid ≠ "") (hmem : ∃ it ∈ s.items, it.tweetId = tid) :
    (undoDelete (opDelete tid s)).items = s.items ∧
    (∀ k, alGet (undoDelete (opDelete tid s)).threads k = alGet s.threads k) ∧
    getThreadStatus (undoDelete (opDelete tid s)) tid =
      { loading := false, error := none } ∧
    (∀ k, k ≠ tid →
      alGet (undoDelete (opDelete tid s)).threadStatus k =
        alGet s.threadStatus k) := by
  cases hrem : removeFirstById tid s.items with
  | none =>
    obtain ⟨it, hit, hity⟩ := hmem
    exact absurd hity ((removeFirstById_none_iff tid s.items).mp hrem it hit)
  | some r =>
    obtain ⟨l', x, i⟩ := r
    obtain ⟨hxtid, hle, hins, _⟩ := removeFirstById_spec tid s.items l' x i hrem
    rw [opDelete_found tid s l' x i hrem]
    simp only [if_pos htid]
    cases hth : alGet s.threads tid with
    | none =>
      rw [undoDelete]
      simp only [hth]
      refine ⟨?_, ?_, ?_, ?_⟩
      · simp only [Nat.min_eq_left hle]
        exact hins
      · intro k
        by_cases hk : k = tid
        · subst hk
          rw [alGet_alErase k k s.threads, if_pos rfl, hth]
        · rw [alGet_alErase tid k s.threads, if_neg hk]
      · rw [getThreadStatus]
        simp only [alGet_alErase tid tid s.threadStatus, if_pos rfl]
        rfl
      · intro k hk
        rw [alGet_alErase tid k s.threadStatus, if_neg hk]
    | some th =>
      rw [undoDelete]
      simp only [hth, hxtid]
      refine ⟨?_, ?_, ?_, ?_⟩
      · simp only [Nat.min_eq_left hle]
        exact hins
      · intro k
        by_cases hk : k = tid
        · subst hk
          rw [alGet_alSet k k th, if_pos rfl, hth]
        · rw [alGet_alSet tid k th, if_neg hk,
            alGet_alErase tid k s.threads, if_neg hk]
      · rw [getThreadStatus]
        simp only [alGet_alSet tid tid, if_pos rfl]
        rfl
      · intro k hk
        rw [alGet_alSet tid k _, if_neg hk,
          alGet_alErase tid k s.threadStatus, if_neg hk]

theorem delete_undo_identity_witness :
    (undoDelete (opDelete "11111" witState0)).items = witState0.items ∧
    (∀ k, alGet (undoDelete (opDelete "11111" witState0)).threads k =
      alGet witState0.threads k) ∧
    getThreadStatus (undoDelete (opDelete "11111" witState0)) "11111" =
      { loading := false, error := none } ∧
    (∀ k, k ≠ "11111" →
      alGet (undoDelete (opDelete "11111" witState0)).threadStatus k =
        alGet witState0.threadStatus k) :=
  delete_undo_identity witState0 "11111" (by decide) (by decide)

/- ----------------------------------------------------------------- -/
/- Theorems: API-key encryption round-trip (C7)                       -/
/- ----------------------------------------------------------------- -/

theorem charSextet_sextetChar {s : Nat} (h : s < 64) :
    charSextet (sextetChar s) = some s :=
  (by decide : ∀ i : Fin 64, charSextet (sextetChar i.val) = some i.val) ⟨s, h⟩

theorem sextetChar_ne_pad {s : Nat} (h : s < 64) : sextetChar s ≠ '=' :=
  (by decide : ∀ i : Fin 64, sextetChar i.val ≠ '=') ⟨s, h⟩

theorem b64_roundtrip_go : ∀ (n : Nat) (l : List Nat), l.length ≤ n →
    isBytes l → b64DecodeChars (b64EncodeBytes l) = some l := by
  intro n
  induction n with
  | zero =>
    intro l hl _
    have : l = [] := List.eq_nil_of_length_eq_zero (Nat.le_zero.mp hl)
    subst this
    rfl
  | succ n ih =>
    intro l hl hb
    match l with
    | [] => rfl
    | [b1] =>
      have h1 : b1 < 256 := hb b1 (by simp)
      have hc1 := charSextet_sextetChar (show b1 / 4 < 64 by omega)
      have hc2 := charSextet_sextetChar (show b1 % 4 * 16 < 64 by omega)
      simp [b64EncodeBytes, b64DecodeChars, b64DecodeChunk, hc1, hc2]
      omega
    | [b1, b2] =>
      have h1 : b1 < 256 := hb b1 (by simp)
      have h2 : b2 < 256 := hb b2 (by simp)
      have hc1 := charSextet_sextetChar (show b1 / 4 < 64 by omega)
      have hc2 := charSextet_sextetChar
        (show b1 % 4 * 16 + b2 / 16 < 64 by omega)
      have hc3 := charSextet_sextetChar (show b2 % 16 * 4 < 64 by omega)
      have hne3 := sextetChar_ne_pad (show b2 % 16 * 4 < 64 by omega)
      simp [b64EncodeBytes, b64DecodeChars, b64DecodeChunk, hc1, hc2, hc3,
        hne3]
      omega
    | b1 :: b2 :: b3 :: rest =>
      have h1 : b1 < 256 := hb b1 (by simp)
      have h2 : b2 < 256 := hb b2 (by simp)
      have h3 : b3 < 256 := hb b3 (by simp)
      have hrest : isBytes rest := fun b hbm => hb b (by simp [hbm])
      have hlen : rest.length ≤ n := by
        simp only [List.length_cons] at hl
        omega
      have hc1 := charSextet_sextetChar (show b1 / 4 < 64 by omega)
      have hc2 := charSextet_sextetChar
        (show b1 % 4 * 16 + b2 / 16 < 64 by omega)
      have hc3 := charSextet_sextetChar
        (show b2 % 16 * 4 + b3 / 64 < 64 by omega)
      have hc4 := charSextet_sextetChar (show b3 % 64 < 64 by omega)
      have hne3 := sextetChar_ne_pad (show b2 % 16 * 4 + b3 / 64 < 64 by omega)
      have hne4 := sextetChar_ne_pad (show b3 % 64 < 64 by omega)
      have hih := ih rest hlen hrest
      simp [b64EncodeBytes, b64DecodeChars, b64DecodeChunk, hc1, hc2, hc3,
        hc4, hne3, hne4, hih]
      omega

theorem b64_roundtrip (l : List Nat) (hb : isBytes l) :
    b64DecodeChars (b64EncodeBytes l) = some l :=
  b64_roundtrip_go l.length l (Nat.le_refl _) hb

theorem base64_roundtrip (l : List Nat) (hb : isBytes l) :
    base64Decode (base64Encode l) = some l :=
  b64_roundtrip l hb

/-- C7: API-key encryption round-trips.  For any AES-GCM primitive that
inverts its own encryption, and any 12-byte IV: `encryptApiKey` emits
the base64 encoding of IV ‖ auth tag ‖ ciphertext (the tag being the
16-byte GCM tag), `decryptApiKey` splits the decoded payload at offsets
12 and 28 and recovers the plaintext, and therefore the key stored for a
user by `POST /api/user/api-key` is exactly the key that
`GET /api/user/api-key` returns to that user. -/
theorem apiKey_roundtrip (C : GCMCipher) (encryptionKey iv : List Nat)
    (value : String)
    (hiv : iv.length = 12)
    (hivb : isBytes iv)
    (htag : (C.enc encryptionKey iv value).2.length = 16)
    (htagb : isBytes (C.enc encryptionKey iv value).2)
    (hctb : isBytes (C.enc encryptionKey iv value).1)
    (hdec : C.dec encryptionKey iv (C.enc encryptionKey iv value).2
      (C.enc encryptionKey iv value).1 = some value) :
    decryptApiKey C encryptionKey (encryptApiKey C encryptionKey iv value)
      = some value ∧
    encryptApiKey C encryptionKey iv value = base64Encode
      (iv ++ (C.enc encryptionKey iv value).2 ++ (C.enc encryptionKey iv value).1) ∧
    (∀ (uid incoming : String) (now : Nat)
        (store : List (String × ApiKeyRecord)),
      jsTrim incoming = value → value ≠ "" →
      postUserApiKey C encryptionKey iv uid now incoming store =
        Except.ok (alSet store uid
          ⟨encryptApiKey C encryptionKey iv value, now⟩) ∧
      getUserApiKey C encryptionKey uid
          (alSet store uid ⟨encryptApiKey C encryptionKey iv value, now⟩) =
        Except.ok ⟨some value, some now⟩) := by
  set tag := (C.enc encryptionKey iv value).2 with htagdef
  set ct := (C.enc encryptionKey iv value).1 with hctdef
  have henc : encryptApiKey C encryptionKey iv value =
      base64Encode (iv ++ tag ++ ct) := by
    unfold encryptApiKey
    rw [List.append_assoc, ← htagdef, ← hctdef, ← List.append_assoc]
  have hbytes : isBytes (iv ++ tag ++ ct) := by
    intro b hbm
    rcases List.mem_append.mp hbm with hbm' | hbm'
    · rcases List.mem_append.mp hbm' with h' | h'
      · exact hivb b h'
      · exact htagb b h'
    · exact hctb b hbm'
  have hlen : (iv ++ tag ++ ct).length = 28 + ct.length := by
    simp only [List.length_append, hiv, htag]
  have hstep : decryptApiKey C encryptionKey (base64Encode (iv ++ tag ++ ct)) =
      C.dec encryptionKey ((iv ++ tag ++ ct).take 12)
        (((iv ++ tag ++ ct).drop 12).take 16) ((iv ++ tag ++ ct).drop 28) := by
    unfold decryptApiKey
    rw [base64_roundtrip _ hbytes]
    exact if_neg (by omega)
  have hmain : decryptApiKey C encryptionKey
      (encryptApiKey C encryptionKey iv value) = some value := by
    have htake : (iv ++ tag ++ ct).take 12 = iv := by
      rw [List.append_assoc, ← hiv, List.take_left]
    have hdrop : (iv ++ tag ++ ct).drop 12 = tag ++ ct := by
      rw [List.append_assoc, ← hiv, List.drop_left]
    have htake2 : ((iv ++ tag ++ ct).drop 12).take 16 = tag := by
      rw [hdrop, ← htag, List.take_left]
    have hdrop2 : (iv ++ tag ++ ct).drop 28 = ct := by
      rw [show (28 : Nat) = 12 + 16 from rfl, ← List.drop_drop, hdrop, ← htag,
        List.drop_left]
    rw [henc, hstep, htake, htake2, hdrop2]
    exact hdec
  refine ⟨hmain, henc, ?_⟩
  intro uid incoming now store htrim hne
  have hpost : postUserApiKey C encryptionKey iv uid now incoming store =
      Except.ok (alSet store uid
        ⟨encryptApiKey C encryptionKey iv value, now⟩) := by
    unfold postUserApiKey
    rw [htrim, if_neg hne]
  refine ⟨hpost, ?_⟩
  have hencne : encryptApiKey C encryptionKey iv value ≠ "" := by
    intro h0
    rw [h0] at hmain
    have : decryptApiKey C encryptionKey "" = none := rfl
    rw [this] at hmain
    cases hmain
  unfold getUserApiKey
  rw [alGet_alSet, if_pos rfl]
  show ((if encryptApiKey C encryptionKey iv value = "" then
      Except.ok ⟨none, none⟩
    else
      match decryptApiKey C encryptionKey
          (encryptApiKey C encryptionKey iv value) with
      | some apiKey => Except.ok ⟨some apiKey, some now⟩
      | none =>
        Except.error ⟨500, "Unable to read stored API key."⟩) :
      Except ErrResp GetKeyResp)
    = Except.ok ⟨some value, some now⟩
  rw [if_neg hencne, hmain]

/-- The trivial cipher used by the C7 witness: the ciphertext is the
UTF-32 code points of the plaintext and the tag is 16 zero bytes. -/
def witCipher : GCMCipher :=
  { enc := fun _ _ v => (v.data.map Char.toNat, List.replicate 16 0)
    dec := fun _ _ tag ct =>
      if tag = List.replicate 16 0 then
        some ⟨ct.map Char.ofNat⟩
      else none }

theorem apiKey_roundtrip_witness :
    decryptApiKey witCipher [] (encryptApiKey witCipher []
      (List.replicate 12 0) "secretKey") = some "secretKey" ∧
    postUserApiKey witCipher [] (List.replicate 12 0) "user1" 42
        " secretKey " [] =
      Except.ok (alSet [] "user1"
        ⟨encryptApiKey witCipher [] (List.replicate 12 0) "secretKey", 42⟩) ∧
    getUserApiKey witCipher [] "user1"
        (alSet [] "user1"
          ⟨encryptApiKey witCipher [] (List.replicate 12 0) "secretKey", 42⟩) =
      Except.ok ⟨some "secretKey", some 42⟩ := by
  have h := apiKey_roundtrip witCipher [] (List.replicate 12 0) "secretKey"
    (by decide) (by decide) (by decide) (by decide) (by decide) (by decide)
  have hstore := h.2.2 "user1" " secretKey " 42 [] (by decide) (by decide)
  exact ⟨h.1, hstore.1, hstore.2⟩

/- ----------------------------------------------------------------- -/
/- Theorems: shape of extractTweetId (C9)                             -/
/- ----------------------------------------------------------------- -/

theorem firstLongDigitRun_spec :
    ∀ (cs run : List Char), firstLongDigitRun cs = some run →
      5 ≤ run.length ∧ (∀ c ∈ run, c.isDigit = true) ∧
      ∃ pre suf, cs = pre ++ run ++ suf := by
  intro cs
  induction cs with
  | nil => intro run h; cases h
  | cons c rest ih =>
    intro run h
    rw [firstLongDigitRun] at h
    by_cases hlen : 5 ≤ (List.takeWhile Char.isDigit (c :: rest)).length
    · rw [if_pos hlen] at h
      simp only [Option.some.injEq] at h
      subst h
      refine ⟨hlen, ?_, [], List.dropWhile Char.isDigit (c :: rest), ?_⟩
      · intro x hx
        exact List.mem_takeWhile_imp hx
      · rw [List.nil_append, List.takeWhile_append_dropWhile]
    · rw [if_neg hlen] at h
      obtain ⟨h1, h2, pre, suf, h3⟩ := ih run h
      refine ⟨h1, h2, c :: pre, suf, ?_⟩
      rw [h3]
      simp [List.append_assoc]

/-- C9: `extractTweetId` is total and shape-restricted: whenever it
returns a string, that string is at least five consecutive decimal
digits cut from the candidate path segment (the segment after `status`,
or the last segment); and it returns `null` whenever the normalized
input fails to parse as a URL, the URL's lowercased hostname is not a
supported twitter/x host, or the path has fewer than two non-empty
segments. -/
theorem extractTweetId_shape (parse : String → Option ParsedUrl)
    (value : String) :
    (∀ s, extractTweetId parse value = some s →
      5 ≤ s.data.length ∧ (∀ c ∈ s.data, c.isDigit = true) ∧
      ∃ url cand, parse (formattedOf value) = some url ∧
        jsTruthy (idCandidateOf (urlSegments url)) = some cand ∧
        ∃ pre suf, cand.data = pre ++ s.data ++ suf) ∧
    (parse (formattedOf value) = none → extractTweetId parse value = none) ∧
    (∀ url, parse (formattedOf value) = some url →
      jsToLower url.hostname ∉ SUPPORTED_HOSTS →
      extractTweetId parse value = none) ∧
    (∀ url, parse (formattedOf value) = some url →
      (urlSegments url).length < 2 →
      extractTweetId parse value = none) := by
  by_cases hv : value = ""
  · rw [extractTweetId, if_pos hv]
    exact ⟨fun s h => (nomatch h), fun _ => rfl, fun _ _ _ => rfl,
      fun _ _ _ => rfl⟩
  · rw [extractTweetId, if_neg hv]
    cases hp : parse (formattedOf value) with
    | none =>
      exact ⟨fun s h => (nomatch h), fun _ => rfl, fun url h => (nomatch h),
        fun url h => (nomatch h)⟩
    | some url =>
      refine ⟨?_, ?_, ?_, ?_⟩
      · intro s h
        dsimp only at h
        by_cases hhost : jsToLower url.hostname ∉ SUPPORTED_HOSTS
        · rw [if_pos hhost] at h; cases h
        · rw [if_neg hhost] at h
          by_cases hseg : (urlSegments url).length < 2
          · rw [if_pos hseg] at h; cases h
          · rw [if_neg hseg] at h
            cases hcand : jsTruthy (idCandidateOf (urlSegments url)) with
            | none => rw [hcand] at h; exact (nomatch h)
            | some cand =>
              rw [hcand] at h
              dsimp only at h
              cases hrun : firstLongDigitRun cand.data with
              | none => rw [hrun] at h; exact (nomatch h)
              | some run =>
                rw [hrun] at h
                simp only [Option.some.injEq] at h
                subst h
                obtain ⟨h1, h2, pre, suf, h3⟩ :=
                  firstLongDigitRun_spec cand.data run hrun
                exact ⟨h1, h2, url, cand, rfl, hcand, pre, suf, h3⟩
      · intro h
        exact Option.noConfusion h
      · intro url' h hhost
        injection h with h3
        subst h3
        dsimp only
        rw [if_pos hhost]
      · intro url' h hseg
        injection h with h3
        subst h3
        dsimp only
        by_cases hhost : jsToLower url.hostname ∉ SUPPORTED_HOSTS
        · rw [if_pos hhost]
        · rw [if_neg hhost, if_pos hseg]

/-- The platform URL parser used by the C9 witness: recognizes exactly
one URL. -/
def witParse : String → Option ParsedUrl := fun s =>
  if s = "https://x.com/someuser/status/123456789" then
    some ⟨"x.com", "/someuser/status/123456789"⟩
  else none

theorem extractTweetId_shape_witness :
    5 ≤ "123456789".data.length ∧
    (∀ c ∈ "123456789".data, c.isDigit = true) ∧
    ∃ url cand,
      witParse (formattedOf "https://x.com/someuser/status/123456789") =
        some url ∧
      jsTruthy (idCandidateOf (urlSegments url)) = some cand ∧
      ∃ pre suf, cand.data = pre ++ "123456789".data ++ suf :=
  (extractTweetId_shape witParse "https://x.com/someuser/status/123456789").1
    "123456789" (by decide)

end TweetSaver
